import Mathlib

set_option maxRecDepth 8192

/-!
Shallow embedding of the single-stroke gesture recognizer in
src/gestures.rs (crate egui_gestures).

Modelling conventions:
* f32 values are modelled as exact rationals.  The source performs only
  comparisons, ring operations, divisions and one square root, so every
  operation except sqrt is exact here.
* f32::sqrt is modelled by sqrtQ, a computable rational approximation
  that is exact whenever the radicand is the square of a rational
  (in particular on all axis-aligned segment lengths arising in the
  concrete scenarios below) and positive on positive input.
* Panics (assert_ne!, Option::unwrap, try_into().unwrap()) are modelled
  by an outer Option layer: from_positionsSafe returns none exactly when
  the Rust code would panic, some none when it returns None, and
  some (some g) when it returns Some(g).
* Vec operations are lists; the 128-element array is a length-indexed
  subtype.
-/

/-- GESTURE_RESOLUTION from the source: number of resampled points. -/
def GESTURE_RESOLUTION : ℕ := 128

/-- Vec::dedup: remove consecutive duplicate points, keeping the first of
each run. -/
def dedup : List (ℚ × ℚ) → List (ℚ × ℚ)
  | [] => []
  | [a] => [a]
  | a :: b :: rest => if a = b then dedup (b :: rest) else a :: dedup (b :: rest)

/-- iter().reduce(f).unwrap_or(0.0): fold a binary operation over a list,
starting from its first element, defaulting to 0 on the empty list. -/
def reduceOr (f : ℚ → ℚ → ℚ) : List ℚ → ℚ
  | [] => 0
  | x :: xs => xs.foldl f x

/-- x_min of the bounding box (reduce with f32::min over x coordinates). -/
def xMin (l : List (ℚ × ℚ)) : ℚ := reduceOr min (l.map Prod.fst)

/-- x_max of the bounding box. -/
def xMax (l : List (ℚ × ℚ)) : ℚ := reduceOr max (l.map Prod.fst)

/-- y_min of the bounding box. -/
def yMin (l : List (ℚ × ℚ)) : ℚ := reduceOr min (l.map Prod.snd)

/-- y_max of the bounding box. -/
def yMax (l : List (ℚ × ℚ)) : ℚ := reduceOr max (l.map Prod.snd)

/-- x_center = (x_max + x_min) / 2. -/
def xCenter (l : List (ℚ × ℚ)) : ℚ := (xMax l + xMin l) / 2

/-- x_half_size = (x_max - x_min) / 2. -/
def xHalf (l : List (ℚ × ℚ)) : ℚ := (xMax l - xMin l) / 2

/-- y_center = (y_max + y_min) / 2. -/
def yCenter (l : List (ℚ × ℚ)) : ℚ := (yMax l + yMin l) / 2

/-- y_half_size = (y_max - y_min) / 2. -/
def yHalf (l : List (ℚ × ℚ)) : ℚ := (yMax l - yMin l) / 2

/-- half_size = x_half_size.max(y_half_size). -/
def halfSize (l : List (ℚ × ℚ)) : ℚ := max (xHalf l) (yHalf l)

/-- The normalization map applied to each deduplicated point. -/
def normPoint (l : List (ℚ × ℚ)) (p : ℚ × ℚ) : ℚ × ℚ :=
  ((p.1 - xCenter l) / halfSize l, (p.2 - yCenter l) / halfSize l)

/-- The normalization block of from_positions: computes the bounding box,
asserts half_size is nonzero (assert_ne!, modelled as none = panic), and
rescales every point.  Input is the deduplicated point list. -/
def normalizeSafe (l : List (ℚ × ℚ)) : Option (List (ℚ × ℚ)) :=
  if halfSize l = 0 then none else some (l.map (normPoint l))

/-- Rational approximation of the square root: exact on squares of
rationals, positive on positive input, 0 on nonpositive input.  Models
f32::sqrt. -/
def sqrtQ (q : ℚ) : ℚ :=
  if q ≤ 0 then 0 else (Nat.sqrt (q.num.toNat * q.den) : ℚ) / (q.den : ℚ)

/-- Euclidean segment length ((dx^2 + dy^2).sqrt()). -/
def segLen (p q : ℚ × ℚ) : ℚ :=
  sqrtQ ((q.1 - p.1) ^ 2 + (q.2 - p.2) ^ 2)

/-- One entry of the segments vector built by from_positions:
(start_point, end_point, segment_length, distance_from_start). -/
structure Segment where
  a : ℚ × ℚ
  b : ℚ × ℚ
  len : ℚ
  cum : ℚ
  deriving DecidableEq

/-- The segments vector: windows(2) of the normalized path, each paired
with its length and the accumulated distance before it. -/
def segsFrom : (ℚ × ℚ) → List (ℚ × ℚ) → ℚ → List Segment
  | _, [], _ => []
  | p, q :: rest, acc => ⟨p, q, segLen p q, acc⟩ :: segsFrom q rest (acc + segLen p q)

/-- segments of a whole path (empty when the path has fewer than 2 points). -/
def segments : List (ℚ × ℚ) → List Segment
  | [] => []
  | p :: rest => segsFrom p rest 0

/-- Sum of the segment lengths starting at point p through the rest of the
path; the final value of the total_distance accumulator. -/
def pathLen : (ℚ × ℚ) → List (ℚ × ℚ) → ℚ
  | _, [] => 0
  | p, q :: rest => segLen p q + pathLen q rest

/-- total_distance after the segments vector is built. -/
def totalLen : List (ℚ × ℚ) → ℚ
  | [] => 0
  | p :: rest => pathLen p rest

/-- Linear interpolation inside a segment at target arc length d:
t = (d - distance_from_start) / segment_length, then
start * (1 - t) + end * t, componentwise. -/
def interp (s : Segment) (d : ℚ) : ℚ × ℚ :=
  ((s.a.1 * (1 - (d - s.cum) / s.len) + s.b.1 * ((d - s.cum) / s.len)),
   (s.a.2 * (1 - (d - s.cum) / s.len) + s.b.2 * ((d - s.cum) / s.len)))

/-- One resampling step: find the first segment (in path order) whose
inclusive range [distance_from_start, distance_from_start + length]
contains d, and interpolate in it; none models the .unwrap() panic when
no segment matches. -/
def sampleAt (segs : List Segment) (d : ℚ) : Option (ℚ × ℚ) :=
  (segs.find? (fun s => decide (s.cum ≤ d ∧ d ≤ s.cum + s.len))).map (fun s => interp s d)

/-- Option-valued map: collects f over the list, propagating the first
none (a panic inside the iterator). -/
def mapO (f : α → Option β) : List α → Option (List β)
  | [] => some []
  | a :: l =>
      match f a with
      | none => none
      | some b =>
          match mapO f l with
          | none => none
          | some bs => some (b :: bs)

/-- The resampling block of from_positions: for every output index i,
target arc length is (i / (GESTURE_RESOLUTION - 1)) * total_distance. -/
def resampleSafe (np : List (ℚ × ℚ)) : Option (List (ℚ × ℚ)) :=
  mapO
    (fun i => sampleAt (segments np) ((i : ℚ) / ((GESTURE_RESOLUTION : ℚ) - 1) * totalLen np))
    (List.range GESTURE_RESOLUTION)

/-- PreparedGesture: exactly GESTURE_RESOLUTION resampled points. -/
def PreparedGesture := { l : List (ℚ × ℚ) // l.length = GESTURE_RESOLUTION }

instance : DecidableEq PreparedGesture := fun a b =>
  decidable_of_iff (a.val = b.val) Subtype.ext_iff.symm

/-- The accumulation loop of PreparedGesture::distance on the underlying
point lists: sum of absolute coordinate differences, position by
position. -/
def l1dist : List (ℚ × ℚ) → List (ℚ × ℚ) → ℚ
  | p :: ps, q :: qs => |p.1 - q.1| + |p.2 - q.2| + l1dist ps qs
  | _, _ => 0

/-- PreparedGesture::distance. -/
def distance (a b : PreparedGesture) : ℚ := l1dist a.val b.val

/-- PreparedGesture::from_positions with the panic paths made explicit:
none = panic, some none = returns None, some (some g) = returns Some(g). -/
def from_positionsSafe (input : List (ℚ × ℚ)) : Option (Option PreparedGesture) :=
  let dp := dedup input
  if dp.length < 2 then some none
  else
    match normalizeSafe dp with
    | none => none
    | some np =>
        match resampleSafe np with
        | none => none
        | some rs =>
            if h : rs.length = GESTURE_RESOLUTION then some (some ⟨rs, h⟩) else none

/-- PreparedGesture::from_positions (panic collapsed into the Option;
no panic is reachable, as proved below). -/
def from_positions (input : List (ℚ × ℚ)) : Option PreparedGesture :=
  Option.join (from_positionsSafe input)

/-- Iterator::min_by_key on a nonempty list: fold that replaces the
accumulator only on a strictly smaller key, so the first of several
equally minimal elements wins. -/
def minByKeyFirst (f : α → ℚ) : List α → Option α
  | [] => none
  | x :: xs => some (xs.foldl (fun acc y => if f y < f acc then y else acc) x)

/-- Fallback gesture used to express the .unwrap() in the gesture! macro;
never actually selected, as proved below. -/
def defaultGesture : PreparedGesture :=
  ⟨List.replicate GESTURE_RESOLUTION ((0 : ℚ), (0 : ℚ)), by simp [GESTURE_RESOLUTION]⟩

/-- gesture![...]: PreparedGesture::from_positions(ctrl).unwrap().  The
unwrap is modelled by getD; from_positions is proved to be some on every
control-point list of GESTURES below. -/
def mkTemplate (ctrl : List (ℚ × ℚ)) : PreparedGesture :=
  (from_positions ctrl).getD defaultGesture

/-- The static template library GESTURES, in source order. -/
def GESTURES : List (String × PreparedGesture) :=
  [("down",           mkTemplate [(0, 0), (0, 100)]),
   ("down-left",      mkTemplate [(0, 0), (0, 100), (-100, 100)]),
   ("down-right",     mkTemplate [(0, 0), (0, 100), (100, 100)]),
   ("down-up",        mkTemplate [(0, 0), (0, 100), (0, 0)]),
   ("left",           mkTemplate [(0, 0), (-100, 0)]),
   ("left-down",      mkTemplate [(0, 0), (-100, 0), (-100, 100)]),
   ("left-right",     mkTemplate [(0, 0), (-100, 0), (0, 0)]),
   ("left-up",        mkTemplate [(0, 0), (-100, 0), (-100, -100)]),
   ("right",          mkTemplate [(0, 0), (100, 0)]),
   ("right-down",     mkTemplate [(0, 0), (100, 0), (100, 100)]),
   ("right-left",     mkTemplate [(0, 0), (100, 0), (0, 0)]),
   ("right-up",       mkTemplate [(0, 0), (100, 0), (100, -100)]),
   ("up",             mkTemplate [(0, 0), (0, -100)]),
   ("up-down",        mkTemplate [(0, 0), (0, -100), (0, 0)]),
   ("up-left",        mkTemplate [(0, 0), (0, -100), (-100, -100)]),
   ("up-right",       mkTemplate [(0, 0), (0, -100), (100, -100)]),
   ("diag-downleft",  mkTemplate [(0, 0), (-100, 100)]),
   ("diag-downright", mkTemplate [(0, 0), (100, 100)]),
   ("diag-upleft",    mkTemplate [(0, 0), (-100, -100)]),
   ("diag-upright",   mkTemplate [(0, 0), (100, -100)]),
   ("rectangle",      mkTemplate [(0, 0), (100, 0), (100, 100), (0, 100)]),
   ("rectangle",      mkTemplate [(0, 0), (0, 100), (100, 100), (100, 0)]),
   ("arrow-up",       mkTemplate [(0, 100), (50, 0), (100, 100)]),
   ("arrow-down",     mkTemplate [(0, 0), (50, 100), (100, 0)]),
   ("arrow-left",     mkTemplate [(100, 0), (0, 50), (100, 100)]),
   ("arrow-right",    mkTemplate [(0, 0), (100, 50), (0, 100)]),
   ("tri-up",         mkTemplate [(0, 100), (50, 0), (100, 100), (0, 100)]),
   ("tri-down",       mkTemplate [(0, 0), (50, 100), (100, 0), (0, 0)]),
   ("tri-left",       mkTemplate [(100, 0), (0, 50), (100, 100), (100, 0)]),
   ("tri-right",      mkTemplate [(0, 0), (100, 50), (0, 100), (0, 0)]),
   ("n",              mkTemplate [(0, 100), (0, 0), (100, 100), (100, 0)]),
   ("t",              mkTemplate [(0, 0), (100, 0), (50, 0), (50, 100)]),
   ("x",              mkTemplate [(0, 0), (100, 100), (100, 0), (0, 100)]),
   ("z",              mkTemplate [(0, 0), (100, 0), (0, 100), (100, 100)])]

/-- gesture_from_positions: prepare the input, then scan GESTURES with
min_by_key on the distance and return the winning label. -/
def gesture_from_positions (input : List (ℚ × ℚ)) : Option String :=
  match from_positions input with
  | none => none
  | some g => (minByKeyFirst (fun t => distance g t.2) GESTURES).map Prod.fst

/-- Head of the normalized deduplicated path of an input (used to compare
prepared gestures without evaluating the full resampling). -/
def nHead (input : List (ℚ × ℚ)) : Option (ℚ × ℚ) :=
  (normalizeSafe (dedup input)).bind List.head?

/-- Last point of the normalized deduplicated path of an input. -/
def nLast (input : List (ℚ × ℚ)) : Option (ℚ × ℚ) :=
  (normalizeSafe (dedup input)).bind List.getLast?

/-- The find predicate used by the resampler. -/
def containsD (d : ℚ) : Segment → Bool :=
  fun s => decide (s.cum ≤ d ∧ d ≤ s.cum + s.len)

theorem sampleAt_def (segs : List Segment) (d : ℚ) :
    sampleAt segs d = (segs.find? (containsD d)).map (fun s => interp s d) := rfl

/-! Lemmas about dedup. -/

theorem dedup_cons (a : ℚ × ℚ) (l : List (ℚ × ℚ)) :
    ∃ t, dedup (a :: l) = a :: t := by
  induction l generalizing a with
  | nil => exact ⟨[], rfl⟩
  | cons b rest ih =>
      by_cases hab : a = b
      · obtain ⟨t, ht⟩ := ih b
        exact ⟨t, by simp [dedup, hab, ht]⟩
      · exact ⟨dedup (b :: rest), by simp [dedup, hab]⟩

theorem dedup_chain (l : List (ℚ × ℚ)) : (dedup l).Chain' (· ≠ ·) := by
  induction l with
  | nil => simp [dedup]
  | cons a rest ih =>
      cases rest with
      | nil => simp [dedup]
      | cons b t =>
          by_cases hab : a = b
          · simpa [dedup, hab] using ih
          · obtain ⟨u, hu⟩ := dedup_cons b t
            rw [show dedup (a :: b :: t) = a :: dedup (b :: t) by simp [dedup, hab], hu]
            rw [hu] at ih
            exact List.chain'_cons.mpr ⟨hab, ih⟩

theorem dedup_two (l : List (ℚ × ℚ)) (h : 2 ≤ (dedup l).length) :
    ∃ a b t, dedup l = a :: b :: t ∧ a ≠ b := by
  rcases hd : dedup l with _ | ⟨a, _ | ⟨b, t⟩⟩
  · rw [hd] at h; simp at h
  · rw [hd] at h; simp at h
  · have hc := dedup_chain l
    rw [hd] at hc
    exact ⟨a, b, t, rfl, (List.chain'_cons.mp hc).1⟩

/-! Lemmas about the fold-based bounding box. -/

theorem foldl_min_le (xs : List ℚ) : ∀ x y : ℚ, (y = x ∨ y ∈ xs) →
    xs.foldl min x ≤ y := by
  induction xs with
  | nil =>
      intro x y h
      rcases h with h | h
      · simp [h]
      · simp at h
  | cons z zs ih =>
      intro x y h
      rcases h with h | h
      · subst h
        calc zs.foldl min (min y z) ≤ min y z := ih (min y z) (min y z) (Or.inl rfl)
          _ ≤ y := min_le_left _ _
      · rcases List.mem_cons.mp h with h | h
        · subst h
          calc zs.foldl min (min x y) ≤ min x y := ih (min x y) (min x y) (Or.inl rfl)
            _ ≤ y := min_le_right _ _
        · exact ih (min x z) y (Or.inr h)

theorem le_foldl_max (xs : List ℚ) : ∀ x y : ℚ, (y = x ∨ y ∈ xs) →
    y ≤ xs.foldl max x := by
  induction xs with
  | nil =>
      intro x y h
      rcases h with h | h
      · simp [h]
      · simp at h
  | cons z zs ih =>
      intro x y h
      rcases h with h | h
      · subst h
        calc y ≤ max y z := le_max_left _ _
          _ ≤ zs.foldl max (max y z) := ih (max y z) (max y z) (Or.inl rfl)
      · rcases List.mem_cons.mp h with h | h
        · subst h
          calc y ≤ max x y := le_max_right _ _
            _ ≤ zs.foldl max (max x y) := ih (max x y) (max x y) (Or.inl rfl)
        · exact ih (max x z) y (Or.inr h)

theorem foldl_min_mem (xs : List ℚ) (x : ℚ) :
    xs.foldl min x = x ∨ xs.foldl min x ∈ xs := by
  induction xs generalizing x with
  | nil => exact Or.inl rfl
  | cons z zs ih =>
      rcases ih (min x z) with h | h
      · rcases min_choice x z with hm | hm
        · exact Or.inl (by rw [List.foldl_cons, h, hm])
        · exact Or.inr (by rw [List.foldl_cons, h, hm]; exact List.mem_cons_self _ _)
      · exact Or.inr (List.mem_cons_of_mem _ h)

theorem foldl_max_mem (xs : List ℚ) (x : ℚ) :
    xs.foldl max x = x ∨ xs.foldl max x ∈ xs := by
  induction xs generalizing x with
  | nil => exact Or.inl rfl
  | cons z zs ih =>
      rcases ih (max x z) with h | h
      · rcases max_choice x z with hm | hm
        · exact Or.inl (by rw [List.foldl_cons, h, hm])
        · exact Or.inr (by rw [List.foldl_cons, h, hm]; exact List.mem_cons_self _ _)
      · exact Or.inr (List.mem_cons_of_mem _ h)

theorem xMin_le {l : List (ℚ × ℚ)} {p : ℚ × ℚ} (hp : p ∈ l) : xMin l ≤ p.1 := by
  rcases l with _ | ⟨q, t⟩
  · simp at hp
  · have : p.1 = q.1 ∨ p.1 ∈ t.map Prod.fst := by
      rcases List.mem_cons.mp hp with h | h
      · exact Or.inl (by rw [h])
      · exact Or.inr (List.mem_map_of_mem _ h)
    simpa [xMin, reduceOr] using foldl_min_le (t.map Prod.fst) q.1 p.1 this

theorem le_xMax {l : List (ℚ × ℚ)} {p : ℚ × ℚ} (hp : p ∈ l) : p.1 ≤ xMax l := by
  rcases l with _ | ⟨q, t⟩
  · simp at hp
  · have : p.1 = q.1 ∨ p.1 ∈ t.map Prod.fst := by
      rcases List.mem_cons.mp hp with h | h
      · exact Or.inl (by rw [h])
      · exact Or.inr (List.mem_map_of_mem _ h)
    simpa [xMax, reduceOr] using le_foldl_max (t.map Prod.fst) q.1 p.1 this

theorem yMin_le {l : List (ℚ × ℚ)} {p : ℚ × ℚ} (hp : p ∈ l) : yMin l ≤ p.2 := by
  rcases l with _ | ⟨q, t⟩
  · simp at hp
  · have : p.2 = q.2 ∨ p.2 ∈ t.map Prod.snd := by
      rcases List.mem_cons.mp hp with h | h
      · exact Or.inl (by rw [h])
      · exact Or.inr (List.mem_map_of_mem _ h)
    simpa [yMin, reduceOr] using foldl_min_le (t.map Prod.snd) q.2 p.2 this

theorem le_yMax {l : List (ℚ × ℚ)} {p : ℚ × ℚ} (hp : p ∈ l) : p.2 ≤ yMax l := by
  rcases l with _ | ⟨q, t⟩
  · simp at hp
  · have : p.2 = q.2 ∨ p.2 ∈ t.map Prod.snd := by
      rcases List.mem_cons.mp hp with h | h
      · exact Or.inl (by rw [h])
      · exact Or.inr (List.mem_map_of_mem _ h)
    simpa [yMax, reduceOr] using le_foldl_max (t.map Prod.snd) q.2 p.2 this

theorem xMin_le_xMax {l : List (ℚ × ℚ)} (h : l ≠ []) : xMin l ≤ xMax l := by
  rcases l with _ | ⟨p, t⟩
  · exact absurd rfl h
  · exact le_trans (xMin_le (List.mem_cons_self _ _)) (le_xMax (List.mem_cons_self _ _))

theorem yMin_le_yMax {l : List (ℚ × ℚ)} (h : l ≠ []) : yMin l ≤ yMax l := by
  rcases l with _ | ⟨p, t⟩
  · exact absurd rfl h
  · exact le_trans (yMin_le (List.mem_cons_self _ _)) (le_yMax (List.mem_cons_self _ _))

theorem xHalf_nonneg {l : List (ℚ × ℚ)} (h : l ≠ []) : 0 ≤ xHalf l := by
  have := xMin_le_xMax h
  unfold xHalf
  linarith

theorem yHalf_nonneg {l : List (ℚ × ℚ)} (h : l ≠ []) : 0 ≤ yHalf l := by
  have := yMin_le_yMax h
  unfold yHalf
  linarith

/-- Two distinct members force a positive half size. -/
theorem halfSize_pos {l : List (ℚ × ℚ)} {p q : ℚ × ℚ}
    (hp : p ∈ l) (hq : q ∈ l) (hne : p ≠ q) : 0 < halfSize l := by
  have hnil : l ≠ [] := by rintro rfl; simp at hp
  have hxy : p.1 ≠ q.1 ∨ p.2 ≠ q.2 := by
    by_contra hc
    push_neg at hc
    exact hne (Prod.ext hc.1 hc.2)
  rcases hxy with hx | hy
  · have h1 : xMin l ≤ min p.1 q.1 := le_min (xMin_le hp) (xMin_le hq)
    have h2 : max p.1 q.1 ≤ xMax l := max_le (le_xMax hp) (le_xMax hq)
    have h3 : min p.1 q.1 < max p.1 q.1 := min_lt_max.mpr hx
    have hx2 : 0 < xHalf l := by unfold xHalf; linarith
    exact lt_of_lt_of_le hx2 (le_max_left _ _)
  · have h1 : yMin l ≤ min p.2 q.2 := le_min (yMin_le hp) (yMin_le hq)
    have h2 : max p.2 q.2 ≤ yMax l := max_le (le_yMax hp) (le_yMax hq)
    have h3 : min p.2 q.2 < max p.2 q.2 := min_lt_max.mpr hy
    have hy2 : 0 < yHalf l := by unfold yHalf; linarith
    exact lt_of_lt_of_le hy2 (le_max_right _ _)

theorem halfSize_pos_of_dedup {l : List (ℚ × ℚ)} (h : 2 ≤ (dedup l).length) :
    0 < halfSize (dedup l) := by
  obtain ⟨a, b, t, hd, hne⟩ := dedup_two l h
  exact halfSize_pos (hd ▸ List.mem_cons_self _ _)
    (hd ▸ List.mem_cons_of_mem _ (List.mem_cons_self _ _)) hne

/-! Lemmas about sqrtQ and segment lengths. -/

theorem sqrtQ_nonneg (q : ℚ) : 0 ≤ sqrtQ q := by
  unfold sqrtQ
  split
  · exact le_refl 0
  · positivity

theorem sqrtQ_pos {q : ℚ} (h : 0 < q) : 0 < sqrtQ q := by
  unfold sqrtQ
  rw [if_neg (not_le.mpr h)]
  have hnum : 0 < q.num := Rat.num_pos.mpr h
  have h1 : 1 ≤ q.num.toNat := by omega
  have hden : 1 ≤ q.den := q.pos
  have : 1 ≤ q.num.toNat * q.den := Nat.one_le_iff_ne_zero.mpr (by positivity)
  have hs : 0 < Nat.sqrt (q.num.toNat * q.den) := Nat.sqrt_pos.mpr this
  have hcast : (0 : ℚ) < (Nat.sqrt (q.num.toNat * q.den) : ℚ) := by
    exact_mod_cast hs
  have hdenq : (0 : ℚ) < (q.den : ℚ) := by exact_mod_cast hden
  exact div_pos hcast hdenq

theorem segLen_nonneg (p q : ℚ × ℚ) : 0 ≤ segLen p q := sqrtQ_nonneg _

theorem segLen_pos {p q : ℚ × ℚ} (h : p ≠ q) : 0 < segLen p q := by
  apply sqrtQ_pos
  have hxy : q.1 - p.1 ≠ 0 ∨ q.2 - p.2 ≠ 0 := by
    by_contra hc
    push_neg at hc
    exact h (Prod.ext (by linarith [hc.1]) (by linarith [hc.2])).symm
  rcases hxy with hx | hy
  · have h1 : 0 < (q.1 - p.1) ^ 2 := by positivity
    have h2 : 0 ≤ (q.2 - p.2) ^ 2 := sq_nonneg _
    linarith
  · have h1 : 0 < (q.2 - p.2) ^ 2 := by positivity
    have h2 : 0 ≤ (q.1 - p.1) ^ 2 := sq_nonneg _
    linarith

theorem pathLen_nonneg (rest : List (ℚ × ℚ)) (p : ℚ × ℚ) : 0 ≤ pathLen p rest := by
  induction rest generalizing p with
  | nil => simp [pathLen]
  | cons q t ih => simpa [pathLen] using add_nonneg (segLen_nonneg p q) (ih q)

theorem pathLen_pos {rest : List (ℚ × ℚ)} {p : ℚ × ℚ} (hne : rest ≠ [])
    (hch : (p :: rest).Chain' (· ≠ ·)) : 0 < pathLen p rest := by
  rcases rest with _ | ⟨q, t⟩
  · exact absurd rfl hne
  · have hpq : p ≠ q := (List.chain'_cons.mp hch).1
    have h1 : 0 < segLen p q := segLen_pos hpq
    have h2 : 0 ≤ pathLen q t := pathLen_nonneg t q
    simpa [pathLen] using add_pos_of_pos_of_nonneg h1 h2

/-- Coverage: every target distance between acc and acc plus the remaining
path length lands in the inclusive range of some segment. -/
theorem segsFrom_covers (rest : List (ℚ × ℚ)) : ∀ (p : ℚ × ℚ) (acc d : ℚ),
    rest ≠ [] → acc ≤ d → d ≤ acc + pathLen p rest →
    ∃ s ∈ segsFrom p rest acc, s.cum ≤ d ∧ d ≤ s.cum + s.len := by
  induction rest with
  | nil => intro p acc d hne; exact absurd rfl hne
  | cons q t ih =>
      intro p acc d _ hlo hhi
      by_cases hcase : d ≤ acc + segLen p q
      · exact ⟨⟨p, q, segLen p q, acc⟩, List.mem_cons_self _ _, hlo, hcase⟩
      · push_neg at hcase
        rcases t with _ | ⟨r, u⟩
        · exfalso
          simp [pathLen] at hhi
          linarith
        · have hrec := ih q (acc + segLen p q) d (by simp) (le_of_lt hcase)
            (by simp [pathLen] at hhi ⊢; linarith)
          obtain ⟨s, hs, h1, h2⟩ := hrec
          exact ⟨s, List.mem_cons_of_mem _ hs, h1, h2⟩

/-- The find? in the resampler succeeds on every target distance inside
the total path length. -/
theorem sampleAt_isSome {np : List (ℚ × ℚ)} {d : ℚ}
    (hnp : 2 ≤ np.length) (hlo : 0 ≤ d) (hhi : d ≤ totalLen np) :
    (sampleAt (segments np) d).isSome := by
  rcases np with _ | ⟨p, rest⟩
  · simp at hnp
  · rcases rest with _ | ⟨q, t⟩
    · simp at hnp
    · obtain ⟨s, hs, h1, h2⟩ := segsFrom_covers (q :: t) p 0 d (by simp) hlo
        (by simpa [totalLen] using hhi)
      unfold sampleAt
      have hx : (List.find? (fun s => decide (s.cum ≤ d ∧ d ≤ s.cum + s.len))
          (segments (p :: q :: t))).isSome := by
        rw [List.find?_isSome]
        exact ⟨s, by simpa [segments] using hs, by simp [h1, h2]⟩
      obtain ⟨w, hw⟩ := Option.isSome_iff_exists.mp hx
      simp only [hw, Option.map_some]
      rfl


/-- The first output sample is the first normalized point. -/
theorem sampleAt_zero (p q : ℚ × ℚ) (t : List (ℚ × ℚ)) :
    sampleAt (segments (p :: q :: t)) 0 = some p := by
  have hpred : containsD 0 (⟨p, q, segLen p q, 0⟩ : Segment) = true := by
    simp [containsD, segLen_nonneg]
  rw [sampleAt_def]
  rw [show segments (p :: q :: t) =
      (⟨p, q, segLen p q, 0⟩ : Segment) :: segsFrom q t (0 + segLen p q) from rfl]
  rw [List.find?_cons_of_pos _ hpred]
  simp only [Option.map_some']
  unfold interp
  norm_num

/-- The sample at target distance acc plus the remaining path length is the
last point of the path. -/
theorem segsFrom_sample_end (rest : List (ℚ × ℚ)) : ∀ (p : ℚ × ℚ) (acc : ℚ),
    rest ≠ [] → (p :: rest).Chain' (· ≠ ·) →
    sampleAt (segsFrom p rest acc) (acc + pathLen p rest) = (p :: rest).getLast? := by
  induction rest with
  | nil => intro p acc hne; exact absurd rfl hne
  | cons q t ih =>
      intro p acc _ hch
      have hpq : p ≠ q := (List.chain'_cons.mp hch).1
      have hlen : 0 < segLen p q := segLen_pos hpq
      rcases t with _ | ⟨r, u⟩
      · have hd : acc + pathLen p [q] = acc + segLen p q := by
          simp [pathLen]
        have hpred : containsD (acc + pathLen p [q]) (⟨p, q, segLen p q, acc⟩ : Segment)
            = true := by
          simp only [containsD, decide_eq_true_eq]
          constructor
          · rw [hd]; linarith
          · rw [hd]
        rw [sampleAt_def]
        rw [show segsFrom p [q] acc = [⟨p, q, segLen p q, acc⟩] from rfl]
        rw [List.find?_cons_of_pos _ hpred]
        have hu : (acc + pathLen p [q] - acc) / segLen p q = 1 := by
          rw [hd]
          field_simp
        simp only [Option.map_some', List.getLast?_cons_cons]
        unfold interp
        simp only [hu]
        norm_num
      · have hrest : 0 < pathLen q (r :: u) :=
          pathLen_pos (by simp) (List.chain'_cons.mp hch).2
        have hd : acc + pathLen p (q :: r :: u) =
            (acc + segLen p q) + pathLen q (r :: u) := by
          simp [pathLen]; ring
        have hpred : ¬ containsD (acc + pathLen p (q :: r :: u))
            (⟨p, q, segLen p q, acc⟩ : Segment) = true := by
          simp only [containsD, decide_eq_true_eq, not_and, not_le]
          intro _
          rw [hd]
          linarith
        rw [sampleAt_def]
        rw [show segsFrom p (q :: r :: u) acc =
            (⟨p, q, segLen p q, acc⟩ : Segment) ::
              segsFrom q (r :: u) (acc + segLen p q) from rfl]
        rw [List.find?_cons_of_neg _ hpred]
        have hrec := ih q (acc + segLen p q) (by simp) (List.chain'_cons.mp hch).2
        rw [sampleAt_def] at hrec
        rw [hd, List.getLast?_cons_cons]
        exact hrec

/-! Lemmas about mapO. -/

theorem mapO_isSome {f : α → Option β} : ∀ l : List α,
    (∀ a ∈ l, (f a).isSome) → ∃ out, mapO f l = some out ∧ out.length = l.length := by
  intro l
  induction l with
  | nil => intro _; exact ⟨[], rfl, rfl⟩
  | cons a t ih =>
      intro h
      obtain ⟨b, hb⟩ := Option.isSome_iff_exists.mp (h a (List.mem_cons_self _ _))
      obtain ⟨bs, hbs, hlen⟩ := ih (fun x hx => h x (List.mem_cons_of_mem _ hx))
      exact ⟨b :: bs, by simp [mapO, hb, hbs], by simp [hlen]⟩

theorem mapO_cons {f : α → Option β} {a : α} {l : List α} {out : List β}
    (h : mapO f (a :: l) = some out) :
    ∃ b bs, f a = some b ∧ mapO f l = some bs ∧ out = b :: bs := by
  rcases hfa : f a with _ | b
  · simp [mapO, hfa] at h
  · rcases hml : mapO f l with _ | bs
    · simp [mapO, hfa, hml] at h
    · refine ⟨b, bs, rfl, rfl, ?_⟩
      simp [mapO, hfa, hml] at h
      exact h.symm

theorem mapO_length {f : α → Option β} : ∀ (l : List α) (out : List β),
    mapO f l = some out → out.length = l.length := by
  intro l
  induction l with
  | nil =>
      intro out h
      simp [mapO] at h
      simp [← h]
  | cons a t ih =>
      intro out h
      obtain ⟨b, bs, _, hbs, rfl⟩ := mapO_cons h
      simp [ih bs hbs]

theorem mapO_getLast {f : α → Option β} : ∀ (l : List α) (out : List β) (a : α),
    mapO f l = some out → l.getLast? = some a → out.getLast? = f a := by
  intro l
  induction l with
  | nil => intro out a _ hl; simp at hl
  | cons x t ih =>
      intro out a hm hl
      obtain ⟨b, bs, hfb, hbs, rfl⟩ := mapO_cons hm
      rcases t with _ | ⟨y, u⟩
      · simp at hl
        subst hl
        have hb0 : bs.length = 0 := by simpa using mapO_length [] bs hbs
        have : bs = [] := List.length_eq_zero.mp hb0
        subst this
        simp [hfb]
      · rw [List.getLast?_cons_cons] at hl
        have hblen : bs.length = u.length + 1 := by simpa using mapO_length _ _ hbs
        rcases hb : bs with _ | ⟨c, cs⟩
        · rw [hb] at hblen; simp at hblen
        · rw [List.getLast?_cons_cons]
          rw [hb] at hbs
          exact ih (c :: cs) a hbs hl

/-! Normalization lemmas. -/

theorem normalizeSafe_eq {l : List (ℚ × ℚ)} (h : halfSize l ≠ 0) :
    normalizeSafe l = some (l.map (normPoint l)) := if_neg h

theorem normPoint_inj {l : List (ℚ × ℚ)} (h : halfSize l ≠ 0) {p q : ℚ × ℚ}
    (heq : normPoint l p = normPoint l q) : p = q := by
  unfold normPoint at heq
  rw [Prod.ext_iff] at heq
  obtain ⟨h1, h2⟩ := heq
  simp only at h1 h2
  apply Prod.ext
  · have hm := congrArg (fun z : ℚ => z * halfSize l) h1
    simp only [div_mul_cancel₀ _ h] at hm
    linarith
  · have hm := congrArg (fun z : ℚ => z * halfSize l) h2
    simp only [div_mul_cancel₀ _ h] at hm
    linarith

theorem norm_chain {l : List (ℚ × ℚ)} (h : halfSize l ≠ 0)
    (hch : l.Chain' (· ≠ ·)) : (l.map (normPoint l)).Chain' (· ≠ ·) := by
  rw [List.chain'_map]
  refine hch.imp ?_
  intro a b hab hc
  exact hab (normPoint_inj h hc)

/-! Resampling produces exactly GESTURE_RESOLUTION points and keeps the
endpoints. -/

theorem resampleSafe_spec {np : List (ℚ × ℚ)} (h2 : 2 ≤ np.length)
    (hch : np.Chain' (· ≠ ·)) :
    ∃ rs, resampleSafe np = some rs ∧ rs.length = GESTURE_RESOLUTION ∧
      rs.head? = np.head? ∧ rs.getLast? = np.getLast? := by
  rcases np with _ | ⟨p, rest⟩
  · simp at h2
  have hT0 : 0 ≤ totalLen (p :: rest) := pathLen_nonneg rest p
  have hsome : ∀ i ∈ List.range GESTURE_RESOLUTION,
      (sampleAt (segments (p :: rest))
        ((i : ℚ) / ((GESTURE_RESOLUTION : ℚ) - 1) * totalLen (p :: rest))).isSome := by
    intro i hi
    have hi128 : i < 128 := by simpa [GESTURE_RESOLUTION] using List.mem_range.mp hi
    have hlo : 0 ≤ (i : ℚ) / ((GESTURE_RESOLUTION : ℚ) - 1) := by
      apply div_nonneg (by positivity)
      norm_num [GESTURE_RESOLUTION]
    have hle1 : (i : ℚ) / ((GESTURE_RESOLUTION : ℚ) - 1) ≤ 1 := by
      rw [div_le_one (by norm_num [GESTURE_RESOLUTION])]
      have : (i : ℚ) ≤ 127 := by exact_mod_cast Nat.le_of_lt_succ hi128
      simp only [GESTURE_RESOLUTION]
      push_cast
      linarith
    exact sampleAt_isSome h2 (mul_nonneg hlo hT0)
      (mul_le_of_le_one_left hT0 hle1)
  obtain ⟨rs, hrs, hlen⟩ := mapO_isSome _ hsome
  refine ⟨rs, hrs, by rw [hlen, List.length_range], ?_, ?_⟩
  · have h128 : List.range GESTURE_RESOLUTION =
        0 :: List.map Nat.succ (List.range 127) := by
      rw [(by norm_num [GESTURE_RESOLUTION] : GESTURE_RESOLUTION = 127 + 1),
        List.range_succ_eq_map]
    rw [h128] at hrs
    obtain ⟨b, bs, hfb, _, rfl⟩ := mapO_cons hrs
    have hzero : ((0 : ℕ) : ℚ) / ((GESTURE_RESOLUTION : ℚ) - 1) * totalLen (p :: rest)
        = 0 := by
      norm_num
    rw [hzero] at hfb
    rcases rest with _ | ⟨q, t⟩
    · simp at h2
    · rw [sampleAt_zero p q t] at hfb
      simp only [List.head?_cons]
      exact (by simpa using hfb.symm : some b = some p)
  · have hlast : (List.range GESTURE_RESOLUTION).getLast? = some 127 := by
      rw [(by norm_num [GESTURE_RESOLUTION] : GESTURE_RESOLUTION = 127 + 1),
        List.range_succ]
      exact List.getLast?_concat _
    have := mapO_getLast _ rs 127 hrs hlast
    rw [this]
    have h127 : ((127 : ℕ) : ℚ) / ((GESTURE_RESOLUTION : ℚ) - 1) = 1 := by
      norm_num [GESTURE_RESOLUTION]
    rw [h127, one_mul]
    rcases rest with _ | ⟨q, t⟩
    · simp at h2
    · have := segsFrom_sample_end (q :: t) p 0 (by simp) hch
      rw [show (0 : ℚ) + pathLen p (q :: t) = pathLen p (q :: t) from zero_add _] at this
      rw [show totalLen (p :: q :: t) = pathLen p (q :: t) from rfl]
      rw [show segments (p :: q :: t) = segsFrom p (q :: t) 0 from rfl]
      exact this

/-! Characterization of from_positions. -/

theorem from_positionsSafe_short {input : List (ℚ × ℚ)}
    (h : (dedup input).length < 2) : from_positionsSafe input = some none := by
  unfold from_positionsSafe
  simp [h]

theorem from_positionsSafe_spec {input : List (ℚ × ℚ)}
    (h2 : 2 ≤ (dedup input).length) :
    ∃ g : PreparedGesture, from_positionsSafe input = some (some g) ∧
      g.val.head? = ((dedup input).map (normPoint (dedup input))).head? ∧
      g.val.getLast? = ((dedup input).map (normPoint (dedup input))).getLast? := by
  have hhs : halfSize (dedup input) ≠ 0 := ne_of_gt (halfSize_pos_of_dedup h2)
  have hnp : normalizeSafe (dedup input) =
      some ((dedup input).map (normPoint (dedup input))) := normalizeSafe_eq hhs
  have hch : ((dedup input).map (normPoint (dedup input))).Chain' (· ≠ ·) :=
    norm_chain hhs (dedup_chain input)
  have hlen2 : 2 ≤ ((dedup input).map (normPoint (dedup input))).length := by
    simpa using h2
  obtain ⟨rs, hrs, hrslen, hhead, hlast⟩ := resampleSafe_spec hlen2 hch
  refine ⟨⟨rs, hrslen⟩, ?_, by simpa using hhead, by simpa using hlast⟩
  simp only [from_positionsSafe, hnp, hrs]
  rw [if_neg (by omega : ¬ (dedup input).length < 2)]
  rw [dif_pos hrslen]

theorem from_positions_none {input : List (ℚ × ℚ)}
    (h : (dedup input).length < 2) : from_positions input = none := by
  unfold from_positions
  rw [from_positionsSafe_short h]
  rfl

theorem from_positions_spec {input : List (ℚ × ℚ)}
    (h2 : 2 ≤ (dedup input).length) :
    ∃ g : PreparedGesture, from_positions input = some g ∧
      g.val.head? = ((dedup input).map (normPoint (dedup input))).head? ∧
      g.val.getLast? = ((dedup input).map (normPoint (dedup input))).getLast? := by
  obtain ⟨g, hg, hh, hl⟩ := from_positionsSafe_spec h2
  exact ⟨g, by rw [from_positions, hg]; rfl, hh, hl⟩

theorem mkTemplate_eq {ctrl : List (ℚ × ℚ)} (h2 : 2 ≤ (dedup ctrl).length) :
    from_positions ctrl = some (mkTemplate ctrl) := by
  obtain ⟨g, hg, _, _⟩ := from_positions_spec h2
  rw [hg, mkTemplate, hg]
  rfl

/-! The min_by_key fold: the first element attaining the minimum wins. -/

theorem foldl_min_stays (f : α → ℚ) : ∀ (l : List α) (acc : α),
    (∀ y ∈ l, f acc ≤ f y) →
    l.foldl (fun acc y => if f y < f acc then y else acc) acc = acc := by
  intro l
  induction l with
  | nil => intro acc _; rfl
  | cons z zs ih =>
      intro acc h
      have hz : ¬ f z < f acc := not_lt.mpr (h z (List.mem_cons_self _ _))
      simp only [List.foldl_cons, if_neg hz]
      exact ih acc (fun y hy => h y (List.mem_cons_of_mem _ hy))

theorem foldl_min_hits (f : α → ℚ) : ∀ (pre : List α) (acc t : α) (post : List α),
    f t < f acc → (∀ y ∈ pre, f t < f y) → (∀ y ∈ post, f t ≤ f y) →
    (pre ++ t :: post).foldl (fun acc y => if f y < f acc then y else acc) acc = t := by
  intro pre
  induction pre with
  | nil =>
      intro acc t post hacc _ hpost
      simp only [List.nil_append, List.foldl_cons, if_pos hacc]
      exact foldl_min_stays f post t hpost
  | cons p ps ih =>
      intro acc t post hacc hpre hpost
      simp only [List.cons_append, List.foldl_cons]
      by_cases hp : f p < f acc
      · rw [if_pos hp]
        exact ih p t post (hpre p (List.mem_cons_self _ _))
          (fun y hy => hpre y (List.mem_cons_of_mem _ hy)) hpost
      · rw [if_neg hp]
        exact ih acc t post hacc
          (fun y hy => hpre y (List.mem_cons_of_mem _ hy)) hpost

theorem minByKeyFirst_split (f : α → ℚ) (pre : List α) (t : α) (post : List α)
    (hpre : ∀ y ∈ pre, f t < f y) (hpost : ∀ y ∈ post, f t ≤ f y) :
    minByKeyFirst f (pre ++ t :: post) = some t := by
  rcases pre with _ | ⟨p, ps⟩
  · simp only [List.nil_append, minByKeyFirst]
    rw [foldl_min_stays f post t hpost]
  · simp only [List.cons_append, minByKeyFirst]
    rw [foldl_min_hits f ps p t post (hpre p (List.mem_cons_self _ _))
      (fun y hy => hpre y (List.mem_cons_of_mem _ hy)) hpost]

/-! Distance lemmas. -/

theorem l1dist_self : ∀ l : List (ℚ × ℚ), l1dist l l = 0 := by
  intro l
  induction l with
  | nil => rfl
  | cons p ps ih => simp [l1dist, ih]

theorem l1dist_comm : ∀ l m : List (ℚ × ℚ), l1dist l m = l1dist m l := by
  intro l
  induction l with
  | nil => intro m; cases m <;> rfl
  | cons p ps ih =>
      intro m
      cases m with
      | nil => rfl
      | cons q qs => simp [l1dist, ih qs, abs_sub_comm]

theorem l1dist_nonneg : ∀ l m : List (ℚ × ℚ), 0 ≤ l1dist l m := by
  intro l
  induction l with
  | nil => intro m; cases m <;> simp [l1dist]
  | cons p ps ih =>
      intro m
      cases m with
      | nil => simp [l1dist]
      | cons q qs =>
          have h1 : 0 ≤ |p.1 - q.1| := abs_nonneg _
          have h2 : 0 ≤ |p.2 - q.2| := abs_nonneg _
          have h3 := ih qs
          simp only [l1dist]
          linarith

theorem l1dist_eq_zero : ∀ l m : List (ℚ × ℚ),
    l.length = m.length → l1dist l m = 0 → l = m := by
  intro l
  induction l with
  | nil =>
      intro m hlen _
      cases m with
      | nil => rfl
      | cons q qs => simp at hlen
  | cons p ps ih =>
      intro m hlen hz
      cases m with
      | nil => simp at hlen
      | cons q qs =>
          have h1 : 0 ≤ |p.1 - q.1| := abs_nonneg _
          have h2 : 0 ≤ |p.2 - q.2| := abs_nonneg _
          have h3 := l1dist_nonneg ps qs
          simp only [l1dist] at hz
          have hx : |p.1 - q.1| = 0 := by linarith
          have hy : |p.2 - q.2| = 0 := by linarith
          have hr : l1dist ps qs = 0 := by linarith
          have hpq : p = q := by
            apply Prod.ext
            · have := abs_eq_zero.mp hx; linarith
            · have := abs_eq_zero.mp hy; linarith
          rw [hpq, ih qs (by simpa using hlen) hr]

theorem distance_self (a : PreparedGesture) : distance a a = 0 := l1dist_self a.val

theorem distance_comm (a b : PreparedGesture) : distance a b = distance b a :=
  l1dist_comm a.val b.val

theorem distance_nonneg (a b : PreparedGesture) : 0 ≤ distance a b :=
  l1dist_nonneg a.val b.val

theorem distance_eq_zero_iff (a b : PreparedGesture) : distance a b = 0 ↔ a = b := by
  constructor
  · intro h
    exact Subtype.ext (l1dist_eq_zero a.val b.val (by rw [a.property, b.property]) h)
  · rintro rfl
    exact distance_self a

/-! Classification helpers. -/

theorem gesture_result {input : List (ℚ × ℚ)} {g : PreparedGesture}
    (hg : from_positions input = some g)
    (pre post : List (String × PreparedGesture)) (t : String × PreparedGesture)
    (hsplit : GESTURES = pre ++ t :: post)
    (hpre : ∀ y ∈ pre, distance g t.2 < distance g y.2)
    (hpost : ∀ y ∈ post, distance g t.2 ≤ distance g y.2) :
    gesture_from_positions input = some t.1 := by
  unfold gesture_from_positions
  rw [hg, hsplit]
  show Option.map Prod.fst
    (minByKeyFirst (fun y => distance g y.2) (pre ++ t :: post)) = some t.1
  rw [minByKeyFirst_split (fun y => distance g y.2) pre t post hpre hpost]
  rfl

theorem gesture_result_zero {input : List (ℚ × ℚ)} {g : PreparedGesture}
    (hg : from_positions input = some g)
    (pre post : List (String × PreparedGesture)) (t : String × PreparedGesture)
    (hsplit : GESTURES = pre ++ t :: post)
    (ht : distance g t.2 = 0)
    (hpre : ∀ y ∈ pre, distance g y.2 ≠ 0) :
    gesture_from_positions input = some t.1 := by
  apply gesture_result hg pre post t hsplit
  · intro y hy
    rw [ht]
    exact lt_of_le_of_ne (distance_nonneg g y.2) (Ne.symm (hpre y hy))
  · intro y _
    rw [ht]
    exact distance_nonneg g y.2

/-! Concrete endpoint evaluations for the template control polylines
(indices follow the order of GESTURES). -/

theorem del0 : 2 ≤ (dedup [((0:ℚ),(0:ℚ)), (0,100)]).length := by
  norm_num [dedup, Prod.ext_iff]

theorem ends0 : nHead [((0:ℚ),(0:ℚ)), (0,100)] = some (0,-1) ∧ nLast [((0:ℚ),(0:ℚ)), (0,100)] = some (0,1) := by
  constructor <;>
  norm_num [nHead, nLast, dedup, Prod.ext_iff, normalizeSafe, halfSize,
    xHalf, yHalf, xMin, xMax, yMin, yMax, xCenter, yCenter, reduceOr,
    normPoint, max_def]

theorem del1 : 2 ≤ (dedup [((0:ℚ),(0:ℚ)), (0,100), (-100,100)]).length := by
  norm_num [dedup, Prod.ext_iff]

theorem ends1 : nHead [((0:ℚ),(0:ℚ)), (0,100), (-100,100)] = some (1,-1) ∧ nLast [((0:ℚ),(0:ℚ)), (0,100), (-100,100)] = some (-1,1) := by
  constructor <;>
  norm_num [nHead, nLast, dedup, Prod.ext_iff, normalizeSafe, halfSize,
    xHalf, yHalf, xMin, xMax, yMin, yMax, xCenter, yCenter, reduceOr,
    normPoint, max_def]

theorem del2 : 2 ≤ (dedup [((0:ℚ),(0:ℚ)), (0,100), (100,100)]).length := by
  norm_num [dedup, Prod.ext_iff]

theorem ends2 : nHead [((0:ℚ),(0:ℚ)), (0,100), (100,100)] = some (-1,-1) ∧ nLast [((0:ℚ),(0:ℚ)), (0,100), (100,100)] = some (1,1) := by
  constructor <;>
  norm_num [nHead, nLast, dedup, Prod.ext_iff, normalizeSafe, halfSize,
    xHalf, yHalf, xMin, xMax, yMin, yMax, xCenter, yCenter, reduceOr,
    normPoint, max_def]

theorem del3 : 2 ≤ (dedup [((0:ℚ),(0:ℚ)), (0,100), (0,0)]).length := by
  norm_num [dedup, Prod.ext_iff]

theorem ends3 : nHead [((0:ℚ),(0:ℚ)), (0,100), (0,0)] = some (0,-1) ∧ nLast [((0:ℚ),(0:ℚ)), (0,100), (0,0)] = some (0,-1) := by
  constructor <;>
  norm_num [nHead, nLast, dedup, Prod.ext_iff, normalizeSafe, halfSize,
    xHalf, yHalf, xMin, xMax, yMin, yMax, xCenter, yCenter, reduceOr,
    normPoint, max_def]

theorem del4 : 2 ≤ (dedup [((0:ℚ),(0:ℚ)), (-100,0)]).length := by
  norm_num [dedup, Prod.ext_iff]

theorem ends4 : nHead [((0:ℚ),(0:ℚ)), (-100,0)] = some (1,0) ∧ nLast [((0:ℚ),(0:ℚ)), (-100,0)] = some (-1,0) := by
  constructor <;>
  norm_num [nHead, nLast, dedup, Prod.ext_iff, normalizeSafe, halfSize,
    xHalf, yHalf, xMin, xMax, yMin, yMax, xCenter, yCenter, reduceOr,
    normPoint, max_def]

theorem del5 : 2 ≤ (dedup [((0:ℚ),(0:ℚ)), (-100,0), (-100,100)]).length := by
  norm_num [dedup, Prod.ext_iff]

theorem ends5 : nHead [((0:ℚ),(0:ℚ)), (-100,0), (-100,100)] = some (1,-1) ∧ nLast [((0:ℚ),(0:ℚ)), (-100,0), (-100,100)] = some (-1,1) := by
  constructor <;>
  norm_num [nHead, nLast, dedup, Prod.ext_iff, normalizeSafe, halfSize,
    xHalf, yHalf, xMin, xMax, yMin, yMax, xCenter, yCenter, reduceOr,
    normPoint, max_def]

theorem del6 : 2 ≤ (dedup [((0:ℚ),(0:ℚ)), (-100,0), (0,0)]).length := by
  norm_num [dedup, Prod.ext_iff]

theorem ends6 : nHead [((0:ℚ),(0:ℚ)), (-100,0), (0,0)] = some (1,0) ∧ nLast [((0:ℚ),(0:ℚ)), (-100,0), (0,0)] = some (1,0) := by
  constructor <;>
  norm_num [nHead, nLast, dedup, Prod.ext_iff, normalizeSafe, halfSize,
    xHalf, yHalf, xMin, xMax, yMin, yMax, xCenter, yCenter, reduceOr,
    normPoint, max_def]

theorem del7 : 2 ≤ (dedup [((0:ℚ),(0:ℚ)), (-100,0), (-100,-100)]).length := by
  norm_num [dedup, Prod.ext_iff]

theorem ends7 : nHead [((0:ℚ),(0:ℚ)), (-100,0), (-100,-100)] = some (1,1) ∧ nLast [((0:ℚ),(0:ℚ)), (-100,0), (-100,-100)] = some (-1,-1) := by
  constructor <;>
  norm_num [nHead, nLast, dedup, Prod.ext_iff, normalizeSafe, halfSize,
    xHalf, yHalf, xMin, xMax, yMin, yMax, xCenter, yCenter, reduceOr,
    normPoint, max_def]

theorem del8 : 2 ≤ (dedup [((0:ℚ),(0:ℚ)), (100,0)]).length := by
  norm_num [dedup, Prod.ext_iff]

theorem ends8 : nHead [((0:ℚ),(0:ℚ)), (100,0)] = some (-1,0) ∧ nLast [((0:ℚ),(0:ℚ)), (100,0)] = some (1,0) := by
  constructor <;>
  norm_num [nHead, nLast, dedup, Prod.ext_iff, normalizeSafe, halfSize,
    xHalf, yHalf, xMin, xMax, yMin, yMax, xCenter, yCenter, reduceOr,
    normPoint, max_def]

theorem del9 : 2 ≤ (dedup [((0:ℚ),(0:ℚ)), (100,0), (100,100)]).length := by
  norm_num [dedup, Prod.ext_iff]

theorem ends9 : nHead [((0:ℚ),(0:ℚ)), (100,0), (100,100)] = some (-1,-1) ∧ nLast [((0:ℚ),(0:ℚ)), (100,0), (100,100)] = some (1,1) := by
  constructor <;>
  norm_num [nHead, nLast, dedup, Prod.ext_iff, normalizeSafe, halfSize,
    xHalf, yHalf, xMin, xMax, yMin, yMax, xCenter, yCenter, reduceOr,
    normPoint, max_def]

theorem del10 : 2 ≤ (dedup [((0:ℚ),(0:ℚ)), (100,0), (0,0)]).length := by
  norm_num [dedup, Prod.ext_iff]

theorem ends10 : nHead [((0:ℚ),(0:ℚ)), (100,0), (0,0)] = some (-1,0) ∧ nLast [((0:ℚ),(0:ℚ)), (100,0), (0,0)] = some (-1,0) := by
  constructor <;>
  norm_num [nHead, nLast, dedup, Prod.ext_iff, normalizeSafe, halfSize,
    xHalf, yHalf, xMin, xMax, yMin, yMax, xCenter, yCenter, reduceOr,
    normPoint, max_def]

theorem del11 : 2 ≤ (dedup [((0:ℚ),(0:ℚ)), (100,0), (100,-100)]).length := by
  norm_num [dedup, Prod.ext_iff]

theorem ends11 : nHead [((0:ℚ),(0:ℚ)), (100,0), (100,-100)] = some (-1,1) ∧ nLast [((0:ℚ),(0:ℚ)), (100,0), (100,-100)] = some (1,-1) := by
  constructor <;>
  norm_num [nHead, nLast, dedup, Prod.ext_iff, normalizeSafe, halfSize,
    xHalf, yHalf, xMin, xMax, yMin, yMax, xCenter, yCenter, reduceOr,
    normPoint, max_def]

theorem del12 : 2 ≤ (dedup [((0:ℚ),(0:ℚ)), (0,-100)]).length := by
  norm_num [dedup, Prod.ext_iff]

theorem ends12 : nHead [((0:ℚ),(0:ℚ)), (0,-100)] = some (0,1) ∧ nLast [((0:ℚ),(0:ℚ)), (0,-100)] = some (0,-1) := by
  constructor <;>
  norm_num [nHead, nLast, dedup, Prod.ext_iff, normalizeSafe, halfSize,
    xHalf, yHalf, xMin, xMax, yMin, yMax, xCenter, yCenter, reduceOr,
    normPoint, max_def]

theorem del13 : 2 ≤ (dedup [((0:ℚ),(0:ℚ)), (0,-100), (0,0)]).length := by
  norm_num [dedup, Prod.ext_iff]

theorem ends13 : nHead [((0:ℚ),(0:ℚ)), (0,-100), (0,0)] = some (0,1) ∧ nLast [((0:ℚ),(0:ℚ)), (0,-100), (0,0)] = some (0,1) := by
  constructor <;>
  norm_num [nHead, nLast, dedup, Prod.ext_iff, normalizeSafe, halfSize,
    xHalf, yHalf, xMin, xMax, yMin, yMax, xCenter, yCenter, reduceOr,
    normPoint, max_def]

theorem del14 : 2 ≤ (dedup [((0:ℚ),(0:ℚ)), (0,-100), (-100,-100)]).length := by
  norm_num [dedup, Prod.ext_iff]

theorem ends14 : nHead [((0:ℚ),(0:ℚ)), (0,-100), (-100,-100)] = some (1,1) ∧ nLast [((0:ℚ),(0:ℚ)), (0,-100), (-100,-100)] = some (-1,-1) := by
  constructor <;>
  norm_num [nHead, nLast, dedup, Prod.ext_iff, normalizeSafe, halfSize,
    xHalf, yHalf, xMin, xMax, yMin, yMax, xCenter, yCenter, reduceOr,
    normPoint, max_def]

theorem del15 : 2 ≤ (dedup [((0:ℚ),(0:ℚ)), (0,-100), (100,-100)]).length := by
  norm_num [dedup, Prod.ext_iff]

theorem ends15 : nHead [((0:ℚ),(0:ℚ)), (0,-100), (100,-100)] = some (-1,1) ∧ nLast [((0:ℚ),(0:ℚ)), (0,-100), (100,-100)] = some (1,-1) := by
  constructor <;>
  norm_num [nHead, nLast, dedup, Prod.ext_iff, normalizeSafe, halfSize,
    xHalf, yHalf, xMin, xMax, yMin, yMax, xCenter, yCenter, reduceOr,
    normPoint, max_def]

theorem del16 : 2 ≤ (dedup [((0:ℚ),(0:ℚ)), (-100,100)]).length := by
  norm_num [dedup, Prod.ext_iff]

theorem ends16 : nHead [((0:ℚ),(0:ℚ)), (-100,100)] = some (1,-1) ∧ nLast [((0:ℚ),(0:ℚ)), (-100,100)] = some (-1,1) := by
  constructor <;>
  norm_num [nHead, nLast, dedup, Prod.ext_iff, normalizeSafe, halfSize,
    xHalf, yHalf, xMin, xMax, yMin, yMax, xCenter, yCenter, reduceOr,
    normPoint, max_def]

theorem del17 : 2 ≤ (dedup [((0:ℚ),(0:ℚ)), (100,100)]).length := by
  norm_num [dedup, Prod.ext_iff]

theorem ends17 : nHead [((0:ℚ),(0:ℚ)), (100,100)] = some (-1,-1) ∧ nLast [((0:ℚ),(0:ℚ)), (100,100)] = some (1,1) := by
  constructor <;>
  norm_num [nHead, nLast, dedup, Prod.ext_iff, normalizeSafe, halfSize,
    xHalf, yHalf, xMin, xMax, yMin, yMax, xCenter, yCenter, reduceOr,
    normPoint, max_def]

theorem del18 : 2 ≤ (dedup [((0:ℚ),(0:ℚ)), (-100,-100)]).length := by
  norm_num [dedup, Prod.ext_iff]

theorem ends18 : nHead [((0:ℚ),(0:ℚ)), (-100,-100)] = some (1,1) ∧ nLast [((0:ℚ),(0:ℚ)), (-100,-100)] = some (-1,-1) := by
  constructor <;>
  norm_num [nHead, nLast, dedup, Prod.ext_iff, normalizeSafe, halfSize,
    xHalf, yHalf, xMin, xMax, yMin, yMax, xCenter, yCenter, reduceOr,
    normPoint, max_def]

theorem del19 : 2 ≤ (dedup [((0:ℚ),(0:ℚ)), (100,-100)]).length := by
  norm_num [dedup, Prod.ext_iff]

theorem ends19 : nHead [((0:ℚ),(0:ℚ)), (100,-100)] = some (-1,1) ∧ nLast [((0:ℚ),(0:ℚ)), (100,-100)] = some (1,-1) := by
  constructor <;>
  norm_num [nHead, nLast, dedup, Prod.ext_iff, normalizeSafe, halfSize,
    xHalf, yHalf, xMin, xMax, yMin, yMax, xCenter, yCenter, reduceOr,
    normPoint, max_def]

theorem del20 : 2 ≤ (dedup [((0:ℚ),(0:ℚ)), (100,0), (100,100), (0,100)]).length := by
  norm_num [dedup, Prod.ext_iff]

theorem ends20 : nHead [((0:ℚ),(0:ℚ)), (100,0), (100,100), (0,100)] = some (-1,-1) ∧ nLast [((0:ℚ),(0:ℚ)), (100,0), (100,100), (0,100)] = some (-1,1) := by
  constructor <;>
  norm_num [nHead, nLast, dedup, Prod.ext_iff, normalizeSafe, halfSize,
    xHalf, yHalf, xMin, xMax, yMin, yMax, xCenter, yCenter, reduceOr,
    normPoint, max_def]

theorem del21 : 2 ≤ (dedup [((0:ℚ),(0:ℚ)), (0,100), (100,100), (100,0)]).length := by
  norm_num [dedup, Prod.ext_iff]

theorem ends21 : nHead [((0:ℚ),(0:ℚ)), (0,100), (100,100), (100,0)] = some (-1,-1) ∧ nLast [((0:ℚ),(0:ℚ)), (0,100), (100,100), (100,0)] = some (1,-1) := by
  constructor <;>
  norm_num [nHead, nLast, dedup, Prod.ext_iff, normalizeSafe, halfSize,
    xHalf, yHalf, xMin, xMax, yMin, yMax, xCenter, yCenter, reduceOr,
    normPoint, max_def]

theorem delScaled : 2 ≤ (dedup [((1000:ℚ),(1000:ℚ)), (1000,1300)]).length := by
  norm_num [dedup, Prod.ext_iff]

theorem normEq_scaled : normalizeSafe (dedup [((1000:ℚ),(1000:ℚ)), (1000,1300)])
    = some [(0,-1),(0,1)] := by
  norm_num [nHead, nLast, dedup, Prod.ext_iff, normalizeSafe, halfSize,
    xHalf, yHalf, xMin, xMax, yMin, yMax, xCenter, yCenter, reduceOr,
    normPoint, max_def]

theorem normEq_down : normalizeSafe (dedup [((0:ℚ),(0:ℚ)), (0,100)])
    = some [(0,-1),(0,1)] := by
  norm_num [nHead, nLast, dedup, Prod.ext_iff, normalizeSafe, halfSize,
    xHalf, yHalf, xMin, xMax, yMin, yMax, xCenter, yCenter, reduceOr,
    normPoint, max_def]

/-! Bridging lemmas between prepared gestures and normalized endpoints. -/

theorem gesture_head_last {input : List (ℚ × ℚ)} {g : PreparedGesture}
    (hg : from_positions input = some g) :
    g.val.head? = nHead input ∧ g.val.getLast? = nLast input := by
  by_cases h2 : 2 ≤ (dedup input).length
  · obtain ⟨g', hg', hh, hl⟩ := from_positions_spec h2
    rw [hg] at hg'
    have hgg : g = g' := by injection hg'
    subst hgg
    have hne : halfSize (dedup input) ≠ 0 := ne_of_gt (halfSize_pos_of_dedup h2)
    constructor
    · rw [hh]
      unfold nHead
      rw [normalizeSafe_eq hne]
      rfl
    · rw [hl]
      unfold nLast
      rw [normalizeSafe_eq hne]
      rfl
  · rw [from_positions_none (by omega)] at hg
    exact absurd hg (by simp)

theorem distance_ne_of_ends {l1 l2 : List (ℚ × ℚ)} {g1 g2 : PreparedGesture}
    (h1 : from_positions l1 = some g1) (h2 : from_positions l2 = some g2)
    (h : nHead l1 ≠ nHead l2 ∨ nLast l1 ≠ nLast l2) : distance g1 g2 ≠ 0 := by
  intro hz
  have hgg : g1 = g2 := (distance_eq_zero_iff g1 g2).mp hz
  obtain ⟨hh1, hl1⟩ := gesture_head_last h1
  obtain ⟨hh2, hl2⟩ := gesture_head_last h2
  rcases h with h | h
  · exact h (by rw [← hh1, ← hh2, hgg])
  · exact h (by rw [← hl1, ← hl2, hgg])

theorem distance_mk_zero {ctrl : List (ℚ × ℚ)} {g : PreparedGesture}
    (hdel : 2 ≤ (dedup ctrl).length) (hg : from_positions ctrl = some g) :
    distance g (mkTemplate ctrl) = 0 := by
  have hm := mkTemplate_eq hdel
  rw [hg] at hm
  have hge : g = mkTemplate ctrl := by injection hm
  rw [← hge]
  exact distance_self g

theorem gesture_congr {l1 l2 : List (ℚ × ℚ)}
    (h1 : ¬ (dedup l1).length < 2) (h2 : ¬ (dedup l2).length < 2)
    (hn : normalizeSafe (dedup l1) = normalizeSafe (dedup l2)) :
    gesture_from_positions l1 = gesture_from_positions l2 := by
  have hsafe : from_positionsSafe l1 = from_positionsSafe l2 := by
    unfold from_positionsSafe
    rw [if_neg h1, if_neg h2, hn]
  unfold gesture_from_positions from_positions
  rw [hsafe]

/-! Concrete classification scenarios. -/

theorem classify_down :
    gesture_from_positions [((0:ℚ),(0:ℚ)), (0,100)] = some "down" := by
  obtain ⟨g, hg, _, _⟩ := from_positions_spec del0
  exact gesture_result_zero hg []
    (List.drop 1 GESTURES) ("down", mkTemplate [((0:ℚ),(0:ℚ)), (0,100)]) rfl
    (distance_mk_zero del0 hg) (by intro y hy; simp at hy)

theorem classify_left :
    gesture_from_positions [((0:ℚ),(0:ℚ)), (-100,0)] = some "left" := by
  obtain ⟨g, hg, _, _⟩ := from_positions_spec del4
  apply gesture_result_zero hg
    [("down",       mkTemplate [((0:ℚ),(0:ℚ)), (0,100)]),
     ("down-left",  mkTemplate [((0:ℚ),(0:ℚ)), (0,100), (-100,100)]),
     ("down-right", mkTemplate [((0:ℚ),(0:ℚ)), (0,100), (100,100)]),
     ("down-up",    mkTemplate [((0:ℚ),(0:ℚ)), (0,100), (0,0)])]
    (List.drop 5 GESTURES) ("left", mkTemplate [((0:ℚ),(0:ℚ)), (-100,0)]) rfl
    (distance_mk_zero del4 hg)
  intro y hy
  simp only [List.mem_cons, List.not_mem_nil, or_false] at hy
  rcases hy with rfl | rfl | rfl | rfl
  · exact distance_ne_of_ends hg (mkTemplate_eq del0)
      (Or.inl (by rw [ends4.1, ends0.1]; norm_num [Prod.ext_iff]))
  · exact distance_ne_of_ends hg (mkTemplate_eq del1)
      (Or.inl (by rw [ends4.1, ends1.1]; norm_num [Prod.ext_iff]))
  · exact distance_ne_of_ends hg (mkTemplate_eq del2)
      (Or.inl (by rw [ends4.1, ends2.1]; norm_num [Prod.ext_iff]))
  · exact distance_ne_of_ends hg (mkTemplate_eq del3)
      (Or.inl (by rw [ends4.1, ends3.1]; norm_num [Prod.ext_iff]))

theorem classify_cw_square :
    gesture_from_positions [((0:ℚ),(0:ℚ)), (100,0), (100,100), (0,100)] = some "rectangle" := by
  obtain ⟨g, hg, _, _⟩ := from_positions_spec del20
  apply gesture_result_zero hg
    [("down", mkTemplate [((0:ℚ),(0:ℚ)), (0,100)]),
     ("down-left", mkTemplate [((0:ℚ),(0:ℚ)), (0,100), (-100,100)]),
     ("down-right", mkTemplate [((0:ℚ),(0:ℚ)), (0,100), (100,100)]),
     ("down-up", mkTemplate [((0:ℚ),(0:ℚ)), (0,100), (0,0)]),
     ("left", mkTemplate [((0:ℚ),(0:ℚ)), (-100,0)]),
     ("left-down", mkTemplate [((0:ℚ),(0:ℚ)), (-100,0), (-100,100)]),
     ("left-right", mkTemplate [((0:ℚ),(0:ℚ)), (-100,0), (0,0)]),
     ("left-up", mkTemplate [((0:ℚ),(0:ℚ)), (-100,0), (-100,-100)]),
     ("right", mkTemplate [((0:ℚ),(0:ℚ)), (100,0)]),
     ("right-down", mkTemplate [((0:ℚ),(0:ℚ)), (100,0), (100,100)]),
     ("right-left", mkTemplate [((0:ℚ),(0:ℚ)), (100,0), (0,0)]),
     ("right-up", mkTemplate [((0:ℚ),(0:ℚ)), (100,0), (100,-100)]),
     ("up", mkTemplate [((0:ℚ),(0:ℚ)), (0,-100)]),
     ("up-down", mkTemplate [((0:ℚ),(0:ℚ)), (0,-100), (0,0)]),
     ("up-left", mkTemplate [((0:ℚ),(0:ℚ)), (0,-100), (-100,-100)]),
     ("up-right", mkTemplate [((0:ℚ),(0:ℚ)), (0,-100), (100,-100)]),
     ("diag-downleft", mkTemplate [((0:ℚ),(0:ℚ)), (-100,100)]),
     ("diag-downright", mkTemplate [((0:ℚ),(0:ℚ)), (100,100)]),
     ("diag-upleft", mkTemplate [((0:ℚ),(0:ℚ)), (-100,-100)]),
     ("diag-upright", mkTemplate [((0:ℚ),(0:ℚ)), (100,-100)])]
    (List.drop 21 GESTURES) ("rectangle", mkTemplate [((0:ℚ),(0:ℚ)), (100,0), (100,100), (0,100)]) rfl
    (distance_mk_zero del20 hg)
  intro y hy
  simp only [List.mem_cons, List.not_mem_nil, or_false] at hy
  rcases hy with rfl | rfl | rfl | rfl | rfl | rfl | rfl | rfl | rfl | rfl | rfl | rfl | rfl | rfl | rfl | rfl | rfl | rfl | rfl | rfl
  · exact distance_ne_of_ends hg (mkTemplate_eq del0)
      (Or.inl (by rw [ends20.1, ends0.1]; norm_num [Prod.ext_iff]))
  · exact distance_ne_of_ends hg (mkTemplate_eq del1)
      (Or.inl (by rw [ends20.1, ends1.1]; norm_num [Prod.ext_iff]))
  · exact distance_ne_of_ends hg (mkTemplate_eq del2)
      (Or.inr (by rw [ends20.2, ends2.2]; norm_num [Prod.ext_iff]))
  · exact distance_ne_of_ends hg (mkTemplate_eq del3)
      (Or.inl (by rw [ends20.1, ends3.1]; norm_num [Prod.ext_iff]))
  · exact distance_ne_of_ends hg (mkTemplate_eq del4)
      (Or.inl (by rw [ends20.1, ends4.1]; norm_num [Prod.ext_iff]))
  · exact distance_ne_of_ends hg (mkTemplate_eq del5)
      (Or.inl (by rw [ends20.1, ends5.1]; norm_num [Prod.ext_iff]))
  · exact distance_ne_of_ends hg (mkTemplate_eq del6)
      (Or.inl (by rw [ends20.1, ends6.1]; norm_num [Prod.ext_iff]))
  · exact distance_ne_of_ends hg (mkTemplate_eq del7)
      (Or.inl (by rw [ends20.1, ends7.1]; norm_num [Prod.ext_iff]))
  · exact distance_ne_of_ends hg (mkTemplate_eq del8)
      (Or.inl (by rw [ends20.1, ends8.1]; norm_num [Prod.ext_iff]))
  · exact distance_ne_of_ends hg (mkTemplate_eq del9)
      (Or.inr (by rw [ends20.2, ends9.2]; norm_num [Prod.ext_iff]))
  · exact distance_ne_of_ends hg (mkTemplate_eq del10)
      (Or.inl (by rw [ends20.1, ends10.1]; norm_num [Prod.ext_iff]))
  · exact distance_ne_of_ends hg (mkTemplate_eq del11)
      (Or.inl (by rw [ends20.1, ends11.1]; norm_num [Prod.ext_iff]))
  · exact distance_ne_of_ends hg (mkTemplate_eq del12)
      (Or.inl (by rw [ends20.1, ends12.1]; norm_num [Prod.ext_iff]))
  · exact distance_ne_of_ends hg (mkTemplate_eq del13)
      (Or.inl (by rw [ends20.1, ends13.1]; norm_num [Prod.ext_iff]))
  · exact distance_ne_of_ends hg (mkTemplate_eq del14)
      (Or.inl (by rw [ends20.1, ends14.1]; norm_num [Prod.ext_iff]))
  · exact distance_ne_of_ends hg (mkTemplate_eq del15)
      (Or.inl (by rw [ends20.1, ends15.1]; norm_num [Prod.ext_iff]))
  · exact distance_ne_of_ends hg (mkTemplate_eq del16)
      (Or.inl (by rw [ends20.1, ends16.1]; norm_num [Prod.ext_iff]))
  · exact distance_ne_of_ends hg (mkTemplate_eq del17)
      (Or.inr (by rw [ends20.2, ends17.2]; norm_num [Prod.ext_iff]))
  · exact distance_ne_of_ends hg (mkTemplate_eq del18)
      (Or.inl (by rw [ends20.1, ends18.1]; norm_num [Prod.ext_iff]))
  · exact distance_ne_of_ends hg (mkTemplate_eq del19)
      (Or.inl (by rw [ends20.1, ends19.1]; norm_num [Prod.ext_iff]))

theorem classify_ccw_square :
    gesture_from_positions [((0:ℚ),(0:ℚ)), (0,100), (100,100), (100,0)] = some "rectangle" := by
  obtain ⟨g, hg, _, _⟩ := from_positions_spec del21
  apply gesture_result_zero hg
    [("down", mkTemplate [((0:ℚ),(0:ℚ)), (0,100)]),
     ("down-left", mkTemplate [((0:ℚ),(0:ℚ)), (0,100), (-100,100)]),
     ("down-right", mkTemplate [((0:ℚ),(0:ℚ)), (0,100), (100,100)]),
     ("down-up", mkTemplate [((0:ℚ),(0:ℚ)), (0,100), (0,0)]),
     ("left", mkTemplate [((0:ℚ),(0:ℚ)), (-100,0)]),
     ("left-down", mkTemplate [((0:ℚ),(0:ℚ)), (-100,0), (-100,100)]),
     ("left-right", mkTemplate [((0:ℚ),(0:ℚ)), (-100,0), (0,0)]),
     ("left-up", mkTemplate [((0:ℚ),(0:ℚ)), (-100,0), (-100,-100)]),
     ("right", mkTemplate [((0:ℚ),(0:ℚ)), (100,0)]),
     ("right-down", mkTemplate [((0:ℚ),(0:ℚ)), (100,0), (100,100)]),
     ("right-left", mkTemplate [((0:ℚ),(0:ℚ)), (100,0), (0,0)]),
     ("right-up", mkTemplate [((0:ℚ),(0:ℚ)), (100,0), (100,-100)]),
     ("up", mkTemplate [((0:ℚ),(0:ℚ)), (0,-100)]),
     ("up-down", mkTemplate [((0:ℚ),(0:ℚ)), (0,-100), (0,0)]),
     ("up-left", mkTemplate [((0:ℚ),(0:ℚ)), (0,-100), (-100,-100)]),
     ("up-right", mkTemplate [((0:ℚ),(0:ℚ)), (0,-100), (100,-100)]),
     ("diag-downleft", mkTemplate [((0:ℚ),(0:ℚ)), (-100,100)]),
     ("diag-downright", mkTemplate [((0:ℚ),(0:ℚ)), (100,100)]),
     ("diag-upleft", mkTemplate [((0:ℚ),(0:ℚ)), (-100,-100)]),
     ("diag-upright", mkTemplate [((0:ℚ),(0:ℚ)), (100,-100)]),
     ("rectangle", mkTemplate [((0:ℚ),(0:ℚ)), (100,0), (100,100), (0,100)])]
    (List.drop 22 GESTURES) ("rectangle", mkTemplate [((0:ℚ),(0:ℚ)), (0,100), (100,100), (100,0)]) rfl
    (distance_mk_zero del21 hg)
  intro y hy
  simp only [List.mem_cons, List.not_mem_nil, or_false] at hy
  rcases hy with rfl | rfl | rfl | rfl | rfl | rfl | rfl | rfl | rfl | rfl | rfl | rfl | rfl | rfl | rfl | rfl | rfl | rfl | rfl | rfl | rfl
  · exact distance_ne_of_ends hg (mkTemplate_eq del0)
      (Or.inl (by rw [ends21.1, ends0.1]; norm_num [Prod.ext_iff]))
  · exact distance_ne_of_ends hg (mkTemplate_eq del1)
      (Or.inl (by rw [ends21.1, ends1.1]; norm_num [Prod.ext_iff]))
  · exact distance_ne_of_ends hg (mkTemplate_eq del2)
      (Or.inr (by rw [ends21.2, ends2.2]; norm_num [Prod.ext_iff]))
  · exact distance_ne_of_ends hg (mkTemplate_eq del3)
      (Or.inl (by rw [ends21.1, ends3.1]; norm_num [Prod.ext_iff]))
  · exact distance_ne_of_ends hg (mkTemplate_eq del4)
      (Or.inl (by rw [ends21.1, ends4.1]; norm_num [Prod.ext_iff]))
  · exact distance_ne_of_ends hg (mkTemplate_eq del5)
      (Or.inl (by rw [ends21.1, ends5.1]; norm_num [Prod.ext_iff]))
  · exact distance_ne_of_ends hg (mkTemplate_eq del6)
      (Or.inl (by rw [ends21.1, ends6.1]; norm_num [Prod.ext_iff]))
  · exact distance_ne_of_ends hg (mkTemplate_eq del7)
      (Or.inl (by rw [ends21.1, ends7.1]; norm_num [Prod.ext_iff]))
  · exact distance_ne_of_ends hg (mkTemplate_eq del8)
      (Or.inl (by rw [ends21.1, ends8.1]; norm_num [Prod.ext_iff]))
  · exact distance_ne_of_ends hg (mkTemplate_eq del9)
      (Or.inr (by rw [ends21.2, ends9.2]; norm_num [Prod.ext_iff]))
  · exact distance_ne_of_ends hg (mkTemplate_eq del10)
      (Or.inl (by rw [ends21.1, ends10.1]; norm_num [Prod.ext_iff]))
  · exact distance_ne_of_ends hg (mkTemplate_eq del11)
      (Or.inl (by rw [ends21.1, ends11.1]; norm_num [Prod.ext_iff]))
  · exact distance_ne_of_ends hg (mkTemplate_eq del12)
      (Or.inl (by rw [ends21.1, ends12.1]; norm_num [Prod.ext_iff]))
  · exact distance_ne_of_ends hg (mkTemplate_eq del13)
      (Or.inl (by rw [ends21.1, ends13.1]; norm_num [Prod.ext_iff]))
  · exact distance_ne_of_ends hg (mkTemplate_eq del14)
      (Or.inl (by rw [ends21.1, ends14.1]; norm_num [Prod.ext_iff]))
  · exact distance_ne_of_ends hg (mkTemplate_eq del15)
      (Or.inl (by rw [ends21.1, ends15.1]; norm_num [Prod.ext_iff]))
  · exact distance_ne_of_ends hg (mkTemplate_eq del16)
      (Or.inl (by rw [ends21.1, ends16.1]; norm_num [Prod.ext_iff]))
  · exact distance_ne_of_ends hg (mkTemplate_eq del17)
      (Or.inr (by rw [ends21.2, ends17.2]; norm_num [Prod.ext_iff]))
  · exact distance_ne_of_ends hg (mkTemplate_eq del18)
      (Or.inl (by rw [ends21.1, ends18.1]; norm_num [Prod.ext_iff]))
  · exact distance_ne_of_ends hg (mkTemplate_eq del19)
      (Or.inl (by rw [ends21.1, ends19.1]; norm_num [Prod.ext_iff]))
  · exact distance_ne_of_ends hg (mkTemplate_eq del20)
      (Or.inr (by rw [ends21.2, ends20.2]; norm_num [Prod.ext_iff]))

theorem classify_scaled :
    gesture_from_positions [((1000:ℚ),(1000:ℚ)), (1000,1300)] =
      gesture_from_positions [((0:ℚ),(0:ℚ)), (0,100)] := by
  apply gesture_congr
  · have := delScaled; omega
  · have := del0; omega
  · rw [normEq_scaled, normEq_down]

/-! Attainment of the bounding box extremes. -/

theorem xMax_mem {l : List (ℚ × ℚ)} (h : l ≠ []) : ∃ p ∈ l, p.1 = xMax l := by
  rcases l with _ | ⟨a, t⟩
  · exact absurd rfl h
  · have hm := foldl_max_mem (t.map Prod.fst) a.1
    rcases hm with hm | hm
    · exact ⟨a, List.mem_cons_self _ _, by simp [xMax, reduceOr, hm]⟩
    · obtain ⟨p, hp, hpe⟩ := List.mem_map.mp hm
      exact ⟨p, List.mem_cons_of_mem _ hp, by simp [xMax, reduceOr, hpe]⟩

theorem xMin_mem {l : List (ℚ × ℚ)} (h : l ≠ []) : ∃ p ∈ l, p.1 = xMin l := by
  rcases l with _ | ⟨a, t⟩
  · exact absurd rfl h
  · have hm := foldl_min_mem (t.map Prod.fst) a.1
    rcases hm with hm | hm
    · exact ⟨a, List.mem_cons_self _ _, by simp [xMin, reduceOr, hm]⟩
    · obtain ⟨p, hp, hpe⟩ := List.mem_map.mp hm
      exact ⟨p, List.mem_cons_of_mem _ hp, by simp [xMin, reduceOr, hpe]⟩

theorem yMax_mem {l : List (ℚ × ℚ)} (h : l ≠ []) : ∃ p ∈ l, p.2 = yMax l := by
  rcases l with _ | ⟨a, t⟩
  · exact absurd rfl h
  · have hm := foldl_max_mem (t.map Prod.snd) a.2
    rcases hm with hm | hm
    · exact ⟨a, List.mem_cons_self _ _, by simp [yMax, reduceOr, hm]⟩
    · obtain ⟨p, hp, hpe⟩ := List.mem_map.mp hm
      exact ⟨p, List.mem_cons_of_mem _ hp, by simp [yMax, reduceOr, hpe]⟩

theorem yMin_mem {l : List (ℚ × ℚ)} (h : l ≠ []) : ∃ p ∈ l, p.2 = yMin l := by
  rcases l with _ | ⟨a, t⟩
  · exact absurd rfl h
  · have hm := foldl_min_mem (t.map Prod.snd) a.2
    rcases hm with hm | hm
    · exact ⟨a, List.mem_cons_self _ _, by simp [yMin, reduceOr, hm]⟩
    · obtain ⟨p, hp, hpe⟩ := List.mem_map.mp hm
      exact ⟨p, List.mem_cons_of_mem _ hp, by simp [yMin, reduceOr, hpe]⟩

/-- find? returns the first match when everything before it fails. -/
theorem find?_append_first (p : α → Bool) : ∀ (pre : List α) (x : α) (post : List α),
    (∀ y ∈ pre, ¬ p y = true) → p x = true →
    (pre ++ x :: post).find? p = some x := by
  intro pre
  induction pre with
  | nil =>
      intro x post _ hx
      simpa using List.find?_cons_of_pos post hx
  | cons z zs ih =>
      intro x post hpre hx
      rw [List.cons_append,
        List.find?_cons_of_neg _ (hpre z (List.mem_cons_self _ _))]
      exact ih x post (fun y hy => hpre y (List.mem_cons_of_mem _ hy)) hx

theorem sqrtQ_one : sqrtQ 1 = 1 := by
  unfold sqrtQ
  rw [if_neg (by norm_num)]
  norm_num

theorem segLen_unit : segLen ((0:ℚ), (0:ℚ)) ((1:ℚ), (0:ℚ)) = 1 := by
  unfold segLen
  norm_num [sqrtQ_one]

theorem segLen_unit2 : segLen ((1:ℚ), (0:ℚ)) ((2:ℚ), (0:ℚ)) = 1 := by
  unfold segLen
  norm_num [sqrtQ_one]

/-! The claims. -/

/-- Claim C1: for every input point sequence, gesture_from_positions
returns none if and only if the stroke is degenerate (after removing
consecutive duplicates fewer than 2 points remain, or the bounding box
has zero spatial extent); every non-degenerate input receives some
label, with no distance threshold. -/
theorem C1_none_iff_degenerate (input : List (ℚ × ℚ)) :
    gesture_from_positions input = none ↔
      ((dedup input).length < 2 ∨ halfSize (dedup input) = 0) := by
  by_cases h2 : (dedup input).length < 2
  · have hnone : gesture_from_positions input = none := by
      unfold gesture_from_positions
      rw [from_positions_none h2]
    simp [hnone, h2]
  · have h2' : 2 ≤ (dedup input).length := by omega
    have hhs := halfSize_pos_of_dedup h2'
    obtain ⟨g, hg, _, _⟩ := from_positions_spec h2'
    have hsome : ∃ r, gesture_from_positions input = some r := by
      unfold gesture_from_positions
      rw [hg]
      exact ⟨_, rfl⟩
    obtain ⟨r, hr⟩ := hsome
    constructor
    · intro hn
      rw [hr] at hn
      exact absurd hn (by simp)
    · intro hd
      rcases hd with hd | hd
      · omega
      · exact absurd hd (ne_of_gt hhs)

/-- Claim C3: the concrete scenarios classify as specified: a downward
stroke yields down, a leftward stroke yields left, both windings of the
square yield rectangle, and a scaled and translated copy of the downward
stroke yields the same label as the original. -/
theorem C3_concrete_classifications :
    gesture_from_positions [((0:ℚ),(0:ℚ)), (0,100)] = some "down" ∧
    gesture_from_positions [((0:ℚ),(0:ℚ)), (-100,0)] = some "left" ∧
    gesture_from_positions [((0:ℚ),(0:ℚ)), (100,0), (100,100), (0,100)]
      = some "rectangle" ∧
    gesture_from_positions [((0:ℚ),(0:ℚ)), (0,100), (100,100), (100,0)]
      = some "rectangle" ∧
    gesture_from_positions [((1000:ℚ),(1000:ℚ)), (1000,1300)] =
      gesture_from_positions [((0:ℚ),(0:ℚ)), (0,100)] :=
  ⟨classify_down, classify_left, classify_cw_square, classify_ccw_square,
    classify_scaled⟩

/-- Claim C4: every input that keeps at least 2 points after consecutive
deduplication is resampled to exactly GESTURE_RESOLUTION points, whose
first point is the first normalized point and whose last point is the
last normalized point. -/
theorem C4_resample_count_endpoints (input : List (ℚ × ℚ))
    (h : 2 ≤ (dedup input).length) :
    ∃ g : PreparedGesture, from_positions input = some g ∧
      g.val.length = GESTURE_RESOLUTION ∧
      g.val.head? = ((dedup input).map (normPoint (dedup input))).head? ∧
      g.val.getLast? = ((dedup input).map (normPoint (dedup input))).getLast? := by
  obtain ⟨g, hg, hh, hl⟩ := from_positions_spec h
  exact ⟨g, hg, g.property, hh, hl⟩

theorem C4_witness :
    2 ≤ (dedup [((0:ℚ),(0:ℚ)), (0,100)]).length ∧
    (∃ g : PreparedGesture,
      from_positions [((0:ℚ),(0:ℚ)), (0,100)] = some g ∧
      g.val.length = GESTURE_RESOLUTION ∧
      g.val.head? = ((dedup [((0:ℚ),(0:ℚ)), (0,100)]).map
        (normPoint (dedup [((0:ℚ),(0:ℚ)), (0,100)]))).head? ∧
      g.val.getLast? = ((dedup [((0:ℚ),(0:ℚ)), (0,100)]).map
        (normPoint (dedup [((0:ℚ),(0:ℚ)), (0,100)]))).getLast?) :=
  ⟨del0, C4_resample_count_endpoints [((0:ℚ),(0:ℚ)), (0,100)] del0⟩

/-- Claim C6: the classifier keeps the first minimum found while scanning
the template library in listed order: whenever a template is minimal and
every earlier template is strictly farther, its label is returned -- in
particular ties resolve to the earliest-listed minimal template. -/
theorem C6_first_minimum_wins (input : List (ℚ × ℚ)) (g : PreparedGesture)
    (hg : from_positions input = some g)
    (pre post : List (String × PreparedGesture)) (t : String × PreparedGesture)
    (hsplit : GESTURES = pre ++ t :: post)
    (hpre : ∀ y ∈ pre, distance g t.2 < distance g y.2)
    (hpost : ∀ y ∈ post, distance g t.2 ≤ distance g y.2) :
    gesture_from_positions input = some t.1 :=
  gesture_result hg pre post t hsplit hpre hpost

theorem C6_witness :
    gesture_from_positions [((0:ℚ),(0:ℚ)), (0,100)] = some "down" :=
  C6_first_minimum_wins [((0:ℚ),(0:ℚ)), (0,100)]
    (mkTemplate [((0:ℚ),(0:ℚ)), (0,100)]) (mkTemplate_eq del0)
    [] (List.drop 1 GESTURES) ("down", mkTemplate [((0:ℚ),(0:ℚ)), (0,100)]) rfl
    (by intro y hy; simp at hy)
    (by
      intro y hy
      have hz : distance (mkTemplate [((0:ℚ),(0:ℚ)), (0,100)])
          (("down", mkTemplate [((0:ℚ),(0:ℚ)), (0,100)])).2 = 0 :=
        distance_self _
      rw [hz]
      exact distance_nonneg _ _)

/-- Claim C7: the PreparedGesture distance (the sum over all
GESTURE_RESOLUTION positions of the absolute x difference plus the
absolute y difference) is zero on identical gestures, symmetric, and
nonnegative. -/
theorem C7_distance_metric (a b : PreparedGesture) :
    distance a a = 0 ∧ distance a b = distance b a ∧ 0 ≤ distance a b :=
  ⟨distance_self a, distance_comm a b, distance_nonneg a b⟩

/-- Claim C9: from_positions never panics: inputs with fewer than 2
deduplicated points return None before any arithmetic, and on all other
inputs the half-size assertion, every one of the GESTURE_RESOLUTION
segment searches (including the last, whose target equals the total
length), and the final fixed-size conversion all succeed. -/
theorem C9_no_panic (input : List (ℚ × ℚ)) :
    (from_positionsSafe input).isSome = true ∧
      ((dedup input).length < 2 → from_positionsSafe input = some none) := by
  constructor
  · by_cases h2 : (dedup input).length < 2
    · rw [from_positionsSafe_short h2]
      rfl
    · obtain ⟨g, hgs, _, _⟩ := from_positionsSafe_spec (by omega :
        2 ≤ (dedup input).length)
      rw [hgs]
      rfl
  · exact from_positionsSafe_short

theorem C9_witness :
    (from_positionsSafe [((0:ℚ),(0:ℚ))]).isSome = true ∧
    from_positionsSafe [((0:ℚ),(0:ℚ))] = some none :=
  ⟨(C9_no_panic [((0:ℚ),(0:ℚ))]).1,
   (C9_no_panic [((0:ℚ),(0:ℚ))]).2 (by norm_num [dedup])⟩

/-- Claim C10: classification is deterministic: identical inputs yield
identical results; gesture_from_positions is a pure function of its
argument and the fixed template library. -/
theorem C10_deterministic (l1 l2 : List (ℚ × ℚ)) (h : l1 = l2) :
    gesture_from_positions l1 = gesture_from_positions l2 := by rw [h]

theorem C10_witness :
    gesture_from_positions [((0:ℚ),(0:ℚ)), (0,100)] =
      gesture_from_positions [((0:ℚ),(0:ℚ)), (0,100)] :=
  C10_deterministic [((0:ℚ),(0:ℚ)), (0,100)] [((0:ℚ),(0:ℚ)), (0,100)] rfl

/-- Claim C5: normalization maps each deduplicated point p to
((p.x - center.x) / half-size, (p.y - center.y) / half-size) in order
(one uniform scale for both axes), every output coordinate lies in
[-1, 1], and the longer axis touches both 1 and -1. -/
theorem C5_normalization (input : List (ℚ × ℚ)) (h : 2 ≤ (dedup input).length) :
    normalizeSafe (dedup input) =
      some ((dedup input).map (normPoint (dedup input))) ∧
    (∀ q ∈ (dedup input).map (normPoint (dedup input)),
      -1 ≤ q.1 ∧ q.1 ≤ 1 ∧ -1 ≤ q.2 ∧ q.2 ≤ 1) ∧
    (∃ q ∈ (dedup input).map (normPoint (dedup input)), q.1 = 1 ∨ q.2 = 1) ∧
    (∃ q ∈ (dedup input).map (normPoint (dedup input)), q.1 = -1 ∨ q.2 = -1) := by
  have hpos : 0 < halfSize (dedup input) := halfSize_pos_of_dedup h
  have hne0 : halfSize (dedup input) ≠ 0 := ne_of_gt hpos
  have hnil : dedup input ≠ [] := by
    intro hc
    rw [hc] at h
    simp at h
  have hxh : (xMax (dedup input) - xMin (dedup input)) / 2 ≤ halfSize (dedup input) :=
    le_max_left (xHalf (dedup input)) (yHalf (dedup input))
  have hyh : (yMax (dedup input) - yMin (dedup input)) / 2 ≤ halfSize (dedup input) :=
    le_max_right (xHalf (dedup input)) (yHalf (dedup input))
  refine ⟨normalizeSafe_eq hne0, ?_, ?_, ?_⟩
  · intro q hq
    obtain ⟨p, hp, hqp⟩ := List.mem_map.mp hq
    have hx1 : p.1 ≤ xMax (dedup input) := le_xMax hp
    have hx2 : xMin (dedup input) ≤ p.1 := xMin_le hp
    have hy1 : p.2 ≤ yMax (dedup input) := le_yMax hp
    have hy2 : yMin (dedup input) ≤ p.2 := yMin_le hp
    have hq1 : q.1 = (p.1 - (xMax (dedup input) + xMin (dedup input)) / 2) /
        halfSize (dedup input) := by rw [← hqp]; rfl
    have hq2 : q.2 = (p.2 - (yMax (dedup input) + yMin (dedup input)) / 2) /
        halfSize (dedup input) := by rw [← hqp]; rfl
    refine ⟨?_, ?_, ?_, ?_⟩
    · rw [hq1, le_div_iff hpos]
      linarith
    · rw [hq1, div_le_one hpos]
      linarith
    · rw [hq2, le_div_iff hpos]
      linarith
    · rw [hq2, div_le_one hpos]
      linarith
  · rcases max_choice (xHalf (dedup input)) (yHalf (dedup input)) with hm | hm
    · have hx0 : 0 < (xMax (dedup input) - xMin (dedup input)) / 2 := by
        have : halfSize (dedup input) = xHalf (dedup input) := hm
        rw [this] at hpos
        exact hpos
      obtain ⟨p, hp, hpe⟩ := xMax_mem hnil
      refine ⟨normPoint (dedup input) p, List.mem_map_of_mem _ hp, Or.inl ?_⟩
      show (p.1 - xCenter (dedup input)) / halfSize (dedup input) = 1
      have hnum : p.1 - xCenter (dedup input) =
          (xMax (dedup input) - xMin (dedup input)) / 2 := by
        rw [hpe]
        show xMax (dedup input) - (xMax (dedup input) + xMin (dedup input)) / 2 = _
        ring
      have hden : halfSize (dedup input) =
          (xMax (dedup input) - xMin (dedup input)) / 2 := hm
      rw [hnum, hden, div_self (ne_of_gt hx0)]
    · have hy0 : 0 < (yMax (dedup input) - yMin (dedup input)) / 2 := by
        have : halfSize (dedup input) = yHalf (dedup input) := hm
        rw [this] at hpos
        exact hpos
      obtain ⟨p, hp, hpe⟩ := yMax_mem hnil
      refine ⟨normPoint (dedup input) p, List.mem_map_of_mem _ hp, Or.inr ?_⟩
      show (p.2 - yCenter (dedup input)) / halfSize (dedup input) = 1
      have hnum : p.2 - yCenter (dedup input) =
          (yMax (dedup input) - yMin (dedup input)) / 2 := by
        rw [hpe]
        show yMax (dedup input) - (yMax (dedup input) + yMin (dedup input)) / 2 = _
        ring
      have hden : halfSize (dedup input) =
          (yMax (dedup input) - yMin (dedup input)) / 2 := hm
      rw [hnum, hden, div_self (ne_of_gt hy0)]
  · rcases max_choice (xHalf (dedup input)) (yHalf (dedup input)) with hm | hm
    · have hx0 : 0 < (xMax (dedup input) - xMin (dedup input)) / 2 := by
        have : halfSize (dedup input) = xHalf (dedup input) := hm
        rw [this] at hpos
        exact hpos
      obtain ⟨p, hp, hpe⟩ := xMin_mem hnil
      refine ⟨normPoint (dedup input) p, List.mem_map_of_mem _ hp, Or.inl ?_⟩
      show (p.1 - xCenter (dedup input)) / halfSize (dedup input) = -1
      have hnum : p.1 - xCenter (dedup input) =
          -((xMax (dedup input) - xMin (dedup input)) / 2) := by
        rw [hpe]
        show xMin (dedup input) - (xMax (dedup input) + xMin (dedup input)) / 2 = _
        ring
      have hden : halfSize (dedup input) =
          (xMax (dedup input) - xMin (dedup input)) / 2 := hm
      rw [hnum, hden, neg_div, div_self (ne_of_gt hx0)]
    · have hy0 : 0 < (yMax (dedup input) - yMin (dedup input)) / 2 := by
        have : halfSize (dedup input) = yHalf (dedup input) := hm
        rw [this] at hpos
        exact hpos
      obtain ⟨p, hp, hpe⟩ := yMin_mem hnil
      refine ⟨normPoint (dedup input) p, List.mem_map_of_mem _ hp, Or.inr ?_⟩
      show (p.2 - yCenter (dedup input)) / halfSize (dedup input) = -1
      have hnum : p.2 - yCenter (dedup input) =
          -((yMax (dedup input) - yMin (dedup input)) / 2) := by
        rw [hpe]
        show yMin (dedup input) - (yMax (dedup input) + yMin (dedup input)) / 2 = _
        ring
      have hden : halfSize (dedup input) =
          (yMax (dedup input) - yMin (dedup input)) / 2 := hm
      rw [hnum, hden, neg_div, div_self (ne_of_gt hy0)]

theorem C5_witness :
    2 ≤ (dedup [((0:ℚ),(0:ℚ)), (0,100)]).length ∧
    (normalizeSafe (dedup [((0:ℚ),(0:ℚ)), (0,100)]) =
      some ((dedup [((0:ℚ),(0:ℚ)), (0,100)]).map
        (normPoint (dedup [((0:ℚ),(0:ℚ)), (0,100)]))) ∧
    (∀ q ∈ (dedup [((0:ℚ),(0:ℚ)), (0,100)]).map
        (normPoint (dedup [((0:ℚ),(0:ℚ)), (0,100)])),
      -1 ≤ q.1 ∧ q.1 ≤ 1 ∧ -1 ≤ q.2 ∧ q.2 ≤ 1) ∧
    (∃ q ∈ (dedup [((0:ℚ),(0:ℚ)), (0,100)]).map
        (normPoint (dedup [((0:ℚ),(0:ℚ)), (0,100)])), q.1 = 1 ∨ q.2 = 1) ∧
    (∃ q ∈ (dedup [((0:ℚ),(0:ℚ)), (0,100)]).map
        (normPoint (dedup [((0:ℚ),(0:ℚ)), (0,100)])), q.1 = -1 ∨ q.2 = -1)) :=
  ⟨del0, C5_normalization [((0:ℚ),(0:ℚ)), (0,100)] del0⟩

/-- Claim C8: during resampling the segment chosen for a target arc
length d is the first one in path order whose inclusive range
[distance_from_start, distance_from_start + length] contains d (so at a
shared boundary the earlier segment wins), and the output point is
start * (1 - t) + end * t with t = (d - distance_from_start) / length. -/
theorem C8_first_inclusive_segment (np : List (ℚ × ℚ)) (d : ℚ)
    (pre post : List Segment) (s : Segment)
    (hsplit : segments np = pre ++ s :: post)
    (hpre : ∀ y ∈ pre, ¬ (y.cum ≤ d ∧ d ≤ y.cum + y.len))
    (hs : s.cum ≤ d ∧ d ≤ s.cum + s.len) :
    sampleAt (segments np) d =
      some (s.a.1 * (1 - (d - s.cum) / s.len) + s.b.1 * ((d - s.cum) / s.len),
            s.a.2 * (1 - (d - s.cum) / s.len) + s.b.2 * ((d - s.cum) / s.len)) := by
  rw [sampleAt_def, hsplit]
  rw [find?_append_first (containsD d) pre s post
    (by
      intro y hy
      simp only [containsD, decide_eq_true_eq]
      exact hpre y hy)
    (by simp only [containsD, decide_eq_true_eq]; exact hs)]
  rfl

theorem C8_witness :
    sampleAt (segments [((0:ℚ),(0:ℚ)), (1,0), (2,0)]) 1 = some (1, 0) := by
  have h := C8_first_inclusive_segment [((0:ℚ),(0:ℚ)), (1,0), (2,0)] 1
    [] (List.drop 1 (segments [((0:ℚ),(0:ℚ)), (1,0), (2,0)]))
    ⟨((0:ℚ),(0:ℚ)), ((1:ℚ),(0:ℚ)), segLen ((0:ℚ),(0:ℚ)) ((1:ℚ),(0:ℚ)), 0⟩
    rfl (by intro y hy; simp at hy)
    (by
      constructor
      · show (0:ℚ) ≤ 1
        norm_num
      · show (1:ℚ) ≤ 0 + segLen ((0:ℚ),(0:ℚ)) ((1:ℚ),(0:ℚ))
        rw [segLen_unit]
        norm_num)
  rw [h]
  simp only [segLen_unit]
  norm_num
